import Mathlib

/-!
Verification of the casinos.com link-table backend against its design
specification.

The development shallowly embeds the Python sources:
  * `backend/scraper.py` — input splitting, URL normalization, anchor
    extraction and internal/external classification;
  * `backend/app.py` — the `/scrape` batch orchestrator.

Machinery from `urllib.parse` (`urlparse`, `urljoin`, `urlunparse`) is
modelled after CPython 3.11 on strings; the model is total, omitting only
CPython's `ValueError` for bracketed (IPv6) host components and the NFKC
netloc check, neither of which is reachable in the behaviors proved here,
and `Char.toLower` lowercases ASCII only (Python `str.lower` is
Unicode-aware; all hosts compared here are ASCII).
-/

namespace Casinos

/-! ## Python string primitives -/

/-- Python whitespace for `str.strip()` (ASCII fragment). -/
def pyIsSpace (c : Char) : Bool :=
  c = ' ' || c = '\t' || c = '\n' || c = '\r' || c = '\x0b' || c = '\x0c'

/-- `str.strip()` on a character list. -/
def pyStripList (l : List Char) : List Char :=
  ((l.dropWhile pyIsSpace).reverse.dropWhile pyIsSpace).reverse

/-- Python `s.strip()`. -/
def pyStrip (s : String) : String := ⟨pyStripList s.data⟩

/-- Python `s.lstrip("/")`. -/
def pyLstripSlash (s : String) : String := ⟨s.data.dropWhile (· = '/')⟩

/-- Python `s.lower()` (ASCII fragment). -/
def pyLower (s : String) : String := ⟨s.data.map Char.toLower⟩

/-- Split a list at the first occurrence of `sep`: `some (before, after)`,
or `none` when `sep` does not occur.  Mirrors Python `s.split(sep, 1)` /
`s.find(sep)`. -/
def splitAtFirst (sep : Char) : List Char → Option (List Char × List Char)
  | [] => none
  | c :: cs =>
    if c = sep then some ([], cs)
    else (splitAtFirst sep cs).map (fun p => (c :: p.1, p.2))

/-- Whether `pat` is a prefix of `l` (Python slice comparison). -/
def prefixAt : List Char → List Char → Bool
  | [], _ => true
  | _ :: _, [] => false
  | p :: ps, c :: cs => p = c && prefixAt ps cs

/-- Whether `pat` occurs as a contiguous subsequence of `l`
(Python `pat in s`). -/
def containsSeq (pat : List Char) : List Char → Bool
  | [] => pat.isEmpty
  | c :: cs => prefixAt pat (c :: cs) || containsSeq pat cs

/-- Python `pat in s` on strings. -/
def containsSub (s pat : String) : Bool := containsSeq pat.data s.data

/-- Python `s.startswith(p)`; defined on the character lists so that it
reduces definitionally. -/
def pyStartsWith (s p : String) : Bool := prefixAt p.data s.data

/-- Python `s.split(sep)` for a single-character separator:
`"".split("/") = [""]`, `"a/".split("/") = ["a", ""]`. -/
def pySplitOnChar (sep : Char) : List Char → List (List Char)
  | [] => [[]]
  | c :: cs =>
    let r := pySplitOnChar sep cs
    if c = sep then [] :: r
    else
      match r with
      | [] => [[c]]
      | h :: t => (c :: h) :: t

/-! ## `urllib.parse` model (CPython 3.11) -/

/-- Result of `urllib.parse.urlparse`. -/
structure ParseRes where
  scheme : String
  netloc : String
  path : String
  params : String
  query : String
  fragment : String
deriving DecidableEq

/-- Characters allowed in a URL scheme after the initial letter. -/
def schemeChar (c : Char) : Bool :=
  c.isAlpha || c.isDigit || c = '+' || c = '-' || c = '.'

/-- Scheme detection of `urlsplit`: the text before the first `:` must be
nonempty, start with a letter and consist of scheme characters. -/
def splitScheme (l : List Char) : Option (List Char × List Char) :=
  match splitAtFirst ':' l with
  | none => none
  | some (pre, rest) =>
    match pre with
    | [] => none
    | p0 :: _ =>
      if p0.isAlpha && pre.all schemeChar then some (pre.map Char.toLower, rest)
      else none

/-- `_splitparams`: split `;params` off the last path segment. -/
def splitParams (l : List Char) : List Char × List Char :=
  if l.contains '/' then
    let b := (l.reverse.takeWhile (· ≠ '/')).reverse
    let a := l.take (l.length - b.length)
    match splitAtFirst ';' b with
    | some (x, y) => (a ++ x, y)
    | none => (l, [])
  else
    match splitAtFirst ';' l with
    | some (x, y) => (x, y)
    | none => (l, [])

/-- `urllib.parse.urlparse(url, scheme=defaultScheme)`: strip the unsafe
bytes `\t\r\n`, detect the scheme, split `//netloc`, then fragment, then
query, then params. -/
def pyUrlparse (url : String) (defaultScheme : String) : ParseRes :=
  let url0 := url.data.filter (fun c => ¬(c = '\t' || c = '\r' || c = '\n'))
  let (scheme, url1) :=
    match splitScheme url0 with
    | some (sch, rest) => (sch, rest)
    | none => (defaultScheme.data, url0)
  let (netloc, url2) :=
    if prefixAt ['/', '/'] url1 then
      let nl := (url1.drop 2).takeWhile (fun c => c ≠ '/' && c ≠ '?' && c ≠ '#')
      (nl, (url1.drop 2).drop nl.length)
    else ([], url1)
  let (url3, fragment) :=
    match splitAtFirst '#' url2 with
    | some (a, b) => (a, b)
    | none => (url2, [])
  let (url4, query) :=
    match splitAtFirst '?' url3 with
    | some (a, b) => (a, b)
    | none => (url3, [])
  let (path, params) := splitParams url4
  ⟨⟨scheme⟩, ⟨netloc⟩, ⟨path⟩, ⟨params⟩, ⟨query⟩, ⟨fragment⟩⟩

/-- `urllib.parse.uses_relative`. -/
def usesRelative : List String :=
  ["", "ftp", "http", "gopher", "nntp", "imap", "wais", "file", "https",
   "shttp", "mms", "prospero", "rtsp", "rtspu", "sftp", "svn", "svn+ssh",
   "ws", "wss"]

/-- `urllib.parse.uses_netloc`. -/
def usesNetloc : List String :=
  ["", "ftp", "http", "gopher", "nntp", "telnet", "imap", "wais", "file",
   "mms", "https", "shttp", "snews", "prospero", "rtsp", "rtspu", "rsync",
   "svn", "svn+ssh", "sftp", "nfs", "git", "git+ssh", "ws", "wss",
   "itms-services"]

/-- `urllib.parse.urlunsplit`. -/
def pyUrlunsplit (scheme netloc url query fragment : String) : String :=
  let url1 :=
    if netloc ≠ "" || (url ≠ "" && prefixAt ['/', '/'] url.data) then
      let u := if url ≠ "" && ¬ pyStartsWith url "/" then "/" ++ url else url
      "//" ++ netloc ++ u
    else url
  let url2 := if scheme ≠ "" then scheme ++ ":" ++ url1 else url1
  let url3 := if query ≠ "" then url2 ++ "?" ++ query else url2
  if fragment ≠ "" then url3 ++ "#" ++ fragment else url3

/-- `urllib.parse.urlunparse`. -/
def pyUrlunparse (scheme netloc path params query fragment : String) : String :=
  pyUrlunsplit scheme netloc
    (if params ≠ "" then path ++ ";" ++ params else path) query fragment

/-- `segments[1:-1] = filter(None, segments[1:-1])` in `urljoin`. -/
def filterMiddle (l : List (List Char)) : List (List Char) :=
  match l with
  | [] => []
  | a :: rest =>
    match rest.getLast? with
    | none => [a]
    | some last => a :: (rest.dropLast.filter (fun x => x ≠ [])) ++ [last]

/-- The dot-segment resolution loop of `urljoin` (`..` pops, `.` is
dropped, anything else is pushed). -/
def resolveDots : List (List Char) → List (List Char) → List (List Char)
  | [], acc => acc
  | seg :: rest, acc =>
    if seg = ['.', '.'] then resolveDots rest acc.dropLast
    else if seg = ['.'] then resolveDots rest acc
    else resolveDots rest (acc ++ [seg])

/-- `urllib.parse.urljoin(base, url)` (CPython 3.11). -/
def pyUrljoin (base url : String) : String :=
  if base = "" then url
  else if url = "" then base
  else
    let b := pyUrlparse base ""
    let u := pyUrlparse url b.scheme
    if u.scheme ≠ b.scheme || ¬ usesRelative.contains u.scheme then url
    else
      let netloc :=
        if usesNetloc.contains u.scheme then
          (if u.netloc ≠ "" then u.netloc else b.netloc)
        else u.netloc
      if usesNetloc.contains u.scheme && u.netloc ≠ "" then
        pyUrlunparse u.scheme u.netloc u.path u.params u.query u.fragment
      else if u.path = "" && u.params = "" then
        pyUrlunparse u.scheme netloc b.path b.params
          (if u.query = "" then b.query else u.query) u.fragment
      else
        let baseParts0 := pySplitOnChar '/' b.path.data
        let baseParts :=
          if baseParts0.getLast? ≠ some ([] : List Char) then baseParts0.dropLast
          else baseParts0
        let segments :=
          if pyStartsWith u.path "/" then pySplitOnChar '/' u.path.data
          else filterMiddle (baseParts ++ pySplitOnChar '/' u.path.data)
        let resolved0 := resolveDots segments []
        let resolved :=
          if segments.getLast? = some ['.'] || segments.getLast? = some ['.', '.'] then
            resolved0 ++ [([] : List Char)]
          else resolved0
        let joined := List.intercalate ['/'] resolved
        let path := if joined = [] then "/" else (⟨joined⟩ : String)
        pyUrlunparse u.scheme netloc path u.params u.query u.fragment

/-! ## `backend/scraper.py` -/

/-- `BASE` (scraper.py line 11). -/
def BASE : String := "https://www.casinos.com/"

/-- `INTERNAL_HOSTS` (scraper.py line 12); the Python set is modelled as a
list, membership being all that is ever used. -/
def INTERNAL_HOSTS : List String := ["www.casinos.com", "casinos.com"]

/-- `normalize_to_casinos` (scraper.py lines 34-60).  `Except.error`
models the raised `ValueError`. -/
def normalize_to_casinos (url_or_path : String) : Except String String :=
  let s := pyStrip url_or_path
  if pyStartsWith s "/" then
    Except.ok (pyUrljoin BASE (pyLstripSlash s))
  else
    let s := if ¬ containsSub s "://" && pyStartsWith s "www." then "https://" ++ s else s
    if ¬ containsSub s "://" then
      Except.ok (pyUrljoin BASE (pyLstripSlash s))
    else
      let parsed := pyUrlparse s ""
      let host := pyLower parsed.netloc
      if INTERNAL_HOSTS.contains host then
        Except.ok ("https://" ++ host ++ (if parsed.path ≠ "" then parsed.path else "/") ++
          (if parsed.query ≠ "" then "?" ++ parsed.query else ""))
      else
        Except.error ("Non-casinos.com URL not allowed: " ++ s)

/-- `is_internal` (scraper.py lines 63-70). -/
def is_internal (href : String) : Bool :=
  let parsed := pyUrlparse href ""
  if parsed.netloc = "" then true
  else INTERNAL_HOSTS.contains (pyLower parsed.netloc)

/-- One `<a href=...>` element as seen by the extraction loop: the `text`
field carries `a.get_text(" ", strip=True)` and the optional attributes
carry `a.get("aria-label")` / `a.get("title")`; producing these from the
HTML byte stream is BeautifulSoup's work, outside the embedded core. -/
structure Anchor where
  href : String
  text : String
  ariaLabel : Option String
  title : Option String
deriving DecidableEq

/-- `if v and v.strip(): return v.strip()` for one fallback attribute. -/
def attrFallback (v : Option String) : String :=
  match v with
  | some s => if pyStrip s ≠ "" then pyStrip s else ""
  | none => ""

/-- `extract_anchor_text` (scraper.py lines 73-84). -/
def extract_anchor_text (a : Anchor) : String :=
  if a.text ≠ "" then a.text
  else if attrFallback a.ariaLabel ≠ "" then attrFallback a.ariaLabel
  else attrFallback a.title

/-- A Python `dict[str, set[str]]` in insertion order; each value list is
duplicate-free, modelling the set. -/
abbrev LinkMap := List (String × List String)

/-- `set.add` on the insertion-ordered duplicate-free list model. -/
def setAdd (l : List String) (v : String) : List String :=
  if v ∈ l then l else l ++ [v]

/-- `m.setdefault(k, set()).add(v)`. -/
def mapAdd (m : LinkMap) (k v : String) : LinkMap :=
  match m with
  | [] => [(k, [v])]
  | (k', vs) :: rest =>
    if k' = k then (k', setAdd vs v) :: rest else (k', vs) :: mapAdd rest k v

/-- Association-list lookup (Python `m[k]`). -/
def lookupM (m : LinkMap) (k : String) : Option (List String) :=
  match m with
  | [] => none
  | (k', vs) :: rest => if k' = k then some vs else lookupM rest k

/-- The guard chain of scraper.py lines 110-119: empty href, `#...`,
`javascript:`, `mailto:`, `tel:` are skipped.  `lowered` is the stripped
href lowercased. -/
def anchorSkipped (a : Anchor) : Bool :=
  let href_raw := pyStrip a.href
  if href_raw = "" then true
  else
    let lowered := pyLower href_raw
    if pyStartsWith lowered "#" || pyStartsWith lowered "javascript:" then true
    else if pyStartsWith lowered "mailto:" || pyStartsWith lowered "tel:" then true
    else false

/-- `urlparse(abs_href).netloc.lower() in INTERNAL_HOSTS`
(scraper.py lines 126 and 130). -/
def absHostInternal (abs_href : String) : Bool :=
  INTERNAL_HOSTS.contains (pyLower (pyUrlparse abs_href "").netloc)

/-- The body of the `for a in soup.select("a[href]")` loop
(scraper.py lines 109-133), acting on the pair
(internal_map, external_map). -/
def processAnchor (source_url : String) (st : LinkMap × LinkMap) (a : Anchor) :
    LinkMap × LinkMap :=
  if anchorSkipped a then st
  else
    let abs_href := pyUrljoin source_url (pyStrip a.href)
    let text := extract_anchor_text a
    if is_internal (pyStrip a.href) && absHostInternal abs_href then
      (mapAdd st.1 abs_href text, st.2)
    else
      if absHostInternal abs_href then (mapAdd st.1 abs_href text, st.2)
      else (st.1, mapAdd st.2 abs_href text)

/-- Lexicographic comparison of character lists by code point — the order
Python uses to compare strings. -/
def listLe : List Char → List Char → Bool
  | [], _ => true
  | _ :: _, [] => false
  | a :: as, b :: bs =>
    if a = b then listLe as bs
    else decide (a.toNat < b.toNat)

/-- Python string comparison `a <= b` (code-point lexicographic). -/
def strLe (a b : String) : Bool := listLe a.data b.data

/-- `sorted` on a list of strings (Python sorts sets into ascending
lists); insertion sort over the Python string order realizes the same
ascending order. -/
def sortStrings (l : List String) : List String :=
  List.insertionSort (fun a b => strLe a b = true) l

/-- `PageLinks` (scraper.py lines 87-91), with the sets already
materialized as sorted lists (lines 136-137). -/
structure PageLinks where
  source_url : String
  internal : LinkMap
  external : LinkMap
deriving DecidableEq

/-- The pure tail of `scrape_links` (scraper.py lines 106-139): from the
anchor list of the fetched page to the returned `PageLinks`.  The network
fetch and HTML parsing (lines 95-104) deliver `anchors`. -/
def scrape_links_body (source_url : String) (anchors : List Anchor) : PageLinks :=
  let maps := anchors.foldl (processAnchor source_url) ([], [])
  { source_url := source_url
    internal := maps.1.map (fun kv => (kv.1, sortStrings kv.2))
    external := maps.2.map (fun kv => (kv.1, sortStrings kv.2)) }

/-! ## `backend/app.py` -/

/-- The parameter names of `async def scrape_links(source_url, timeout_s=20.0)`
(scraper.py line 94). -/
def scrapeLinksParams : List String := ["source_url", "timeout_s"]

/-- The keyword arguments passed at the call site
`scrape_links(u, ignore_header_footer=req.ignore_header_footer)`
(app.py line 81). -/
def scrapeCallKwargs : List String := ["ignore_header_footer"]

/-- The `TypeError` Python raises when a call passes a keyword argument
that is not among the callee's parameters (message paraphrased without
quote characters). -/
def typeErrorMsg : String :=
  "TypeError: scrape_links() got an unexpected keyword argument ignore_header_footer"

/-- The call `scrape_links(u, ignore_header_footer=...)` at app.py line 81:
Python binds keyword arguments against the parameter list before the body
runs, raising `TypeError` on an unknown keyword; `fetch` stands for the
body of `scrape_links` (network fetch, parse, `scrape_links_body`), which
runs only if binding succeeds. -/
def attemptScrape (fetch : String → Except String PageLinks) (u : String) :
    Except String PageLinks :=
  if scrapeCallKwargs.all (fun k => scrapeLinksParams.contains k) then fetch u
  else Except.error typeErrorMsg

/-- The two fatal HTTP 400 conditions of the `/scrape` handler. -/
inductive FatalError where
  | badBatchSize
  | noValidInputs
deriving DecidableEq

/-- What the handler accumulates before the sheet write: the normalized
URL list, the two ordered result-block lists, the error strings, and the
two counts of the response body. -/
structure BatchOutcome where
  normalized : List String
  internalBlocks : List (String × LinkMap)
  externalBlocks : List (String × LinkMap)
  errors : List String
  inputCount : Nat
  normalizedCount : Nat
deriving DecidableEq

/-- `list(dict.fromkeys(urls_in))` (app.py line 62): deduplication by
exact string equality preserving first occurrences. -/
def pyDedupAux (seen : List String) : List String → List String
  | [] => []
  | x :: xs =>
    if seen.contains x then pyDedupAux seen xs
    else x :: pyDedupAux (x :: seen) xs

/-- Deduplication preserving first occurrences. -/
def pyDedup (l : List String) : List String := pyDedupAux [] l

/-- The normalization loop (app.py lines 64-71): successes in order, and
an error string `"<u> -> <e>"` per failure. -/
def normalizeAll : List String → List String × List String
  | [] => ([], [])
  | u :: us =>
    let r := normalizeAll us
    match normalize_to_casinos u with
    | Except.ok n => (n :: r.1, r.2)
    | Except.error e => (r.1, (u ++ " -> " ++ e) :: r.2)

/-- The scrape loop (app.py lines 79-87): per URL, try the extractor; on
any exception record `(u, {})` in both block lists plus
`"Failed to scrape <u>: <e>"`, and continue. -/
def scrapeAll (fetch : String → Except String PageLinks) :
    List String → List (String × LinkMap) × List (String × LinkMap) × List String
  | [] => ([], [], [])
  | u :: us =>
    let r := scrapeAll fetch us
    match attemptScrape fetch u with
    | Except.ok page =>
      ((page.source_url, page.internal) :: r.1, (page.source_url, page.external) :: r.2.1, r.2.2)
    | Except.error e =>
      ((u, []) :: r.1, (u, []) :: r.2.1, ("Failed to scrape " ++ u ++ ": " ++ e) :: r.2.2)

/-- The `/scrape` handler (app.py lines 55-87) up to the sheet write:
`tokens` is the output of `gather_inputs`; the size gate precedes the
dedup, the dedup precedes normalization, and scrape failures never abort
the loop.  The sheet write and its configuration errors (lines 89-96) are
outside the specified core. -/
def runBatch (fetch : String → Except String PageLinks) (tokens : List String) :
    Except FatalError BatchOutcome :=
  if ¬ (1 ≤ tokens.length ∧ tokens.length ≤ 150) then
    Except.error FatalError.badBatchSize
  else
    let urls_in := pyDedup tokens
    let nr := normalizeAll urls_in
    if nr.1 = [] then Except.error FatalError.noValidInputs
    else
      let sr := scrapeAll fetch nr.1
      Except.ok
        { normalized := nr.1
          internalBlocks := sr.1
          externalBlocks := sr.2.1
          errors := nr.2 ++ sr.2.2
          inputCount := urls_in.length
          normalizedCount := nr.1.length }

/-! ## Classification, as the two-branch code and as the spec's single rule -/

/-- The two-branch classification of scraper.py lines 126-133 as a
predicate: the primary branch (`is_internal` on the raw href combined with
the host check on the resolved URL) and the fallback re-check of the
resolved host in the `else` branch. -/
def classifyCode (href_raw abs_href : String) : Bool :=
  if is_internal href_raw && absHostInternal abs_href then true
  else if absHostInternal abs_href then true
  else false

/-- Modelled from the spec: the resolved absolute URL is internal iff its
host, lowercased, matches one of the two accepted target hosts. -/
def classifySpecRule (abs_href : String) : Bool :=
  INTERNAL_HOSTS.contains (pyLower (pyUrlparse abs_href "").netloc)

/-- The anchors of a page that pass the skip guards and whose href
resolves (against `src`) to the absolute URL `u`, in page order, mapped to
their extracted anchor texts. -/
def textsFor (src : String) (anchors : List Anchor) (u : String) : List String :=
  (anchors.filter
    (fun a => !anchorSkipped a && (pyUrljoin src (pyStrip a.href) == u))).map
    extract_anchor_text

/-- Accumulating a list of texts into an optional bucket of an
association map: `none` stays `none` only when there is nothing to add. -/
def bucket (o : Option (List String)) (ts : List String) : Option (List String) :=
  match o, ts with
  | none, [] => none
  | o, ts => some (ts.foldl setAdd (o.getD []))

/-- The outcome of the concrete one-URL batch `["us/slots"]`. -/
def outC2 : BatchOutcome :=
  { normalized := ["https://www.casinos.com/us/slots"]
    internalBlocks := [("https://www.casinos.com/us/slots", [])]
    externalBlocks := [("https://www.casinos.com/us/slots", [])]
    errors := ["Failed to scrape https://www.casinos.com/us/slots: " ++ typeErrorMsg]
    inputCount := 1
    normalizedCount := 1 }

/-- C3 counterexample data: 151 raw tokens whose first two entries are the
same string, so they deduplicate to 150 distinct tokens. -/
def c3tokens : List String := "u0" :: (List.range 150).map (fun i => "u" ++ Nat.repr i)

end Casinos

namespace Casinos

deriving instance DecidableEq for Except

set_option maxRecDepth 65536

/-! ## String and list toolkit -/

theorem str_ext {a b : String} (h : a.data = b.data) : a = b :=
  congrArg String.mk h

theorem strData_append (a b : String) : (a ++ b).data = a.data ++ b.data := rfl

theorem mem_pyStrip {c : Char} {s : String} (h : c ∈ (pyStrip s).data) : c ∈ s.data := by
  unfold pyStrip pyStripList at h
  simp only [List.mem_reverse] at h
  have h2 := (List.dropWhile_sublist pyIsSpace).mem h
  rw [List.mem_reverse] at h2
  exact (List.dropWhile_sublist pyIsSpace).mem h2

theorem mem_pyLstripSlash {c : Char} {s : String} (h : c ∈ (pyLstripSlash s).data) :
    c ∈ s.data := by
  unfold pyLstripSlash at h
  exact (List.dropWhile_sublist _).mem h

theorem dropWhile_head_not {p : Char → Bool} {l : List Char} {c : Char} {cs : List Char}
    (h : l.dropWhile p = c :: cs) : p c = false := by
  induction l with
  | nil => cases h
  | cons x xs ih =>
    rw [List.dropWhile_cons] at h
    split at h
    · exact ih h
    · next hx =>
      cases h
      revert hx
      cases p c <;> simp

theorem dropWhile_eq_self_of {p : Char → Bool} {l : List Char}
    (h : ∀ c ∈ l, p c = false) : l.dropWhile p = l := by
  induction l with
  | nil => rfl
  | cons x xs ih =>
    rw [List.dropWhile_cons, if_neg (by simp [h x (List.mem_cons_self x xs)])]

theorem pyStripList_id {l : List Char} (h : ∀ c ∈ l, pyIsSpace c = false) :
    pyStripList l = l := by
  unfold pyStripList
  rw [dropWhile_eq_self_of h, dropWhile_eq_self_of (by
    intro c hc
    exact h c (List.mem_reverse.mp hc)), List.reverse_reverse]

theorem pyLstripSlash_shape (s : String) :
    (pyLstripSlash s).data = [] ∨
      ∃ c cs, (pyLstripSlash s).data = c :: cs ∧ c ≠ '/' := by
  cases hd : (pyLstripSlash s).data with
  | nil => exact Or.inl rfl
  | cons c cs =>
    refine Or.inr ⟨c, cs, rfl, ?_⟩
    have h2 : s.data.dropWhile (· = '/') = c :: cs := hd
    have h3 := dropWhile_head_not h2
    simpa using h3

theorem splitAtFirst_eq_none {sep : Char} {l : List Char} (h : sep ∉ l) :
    splitAtFirst sep l = none := by
  induction l with
  | nil => rfl
  | cons c cs ih =>
    have hc : c ≠ sep := fun he => h (he ▸ List.mem_cons_self c cs)
    rw [splitAtFirst, if_neg hc, ih (fun hm => h (List.mem_cons_of_mem c hm))]
    rfl

theorem splitAtFirst_app {sep : Char} {l1 : List Char} (h : sep ∉ l1) (l2 : List Char) :
    splitAtFirst sep (l1 ++ sep :: l2) = some (l1, l2) := by
  induction l1 with
  | nil => simp [splitAtFirst]
  | cons c cs ih =>
    have hc : c ≠ sep := fun he => h (he ▸ List.mem_cons_self c cs)
    rw [List.cons_append, splitAtFirst, if_neg hc,
      ih (fun hm => h (List.mem_cons_of_mem c hm))]
    rfl

theorem splitAtFirst_some {sep : Char} {l a b : List Char}
    (h : splitAtFirst sep l = some (a, b)) : l = a ++ sep :: b ∧ sep ∉ a := by
  induction l generalizing a with
  | nil => cases h
  | cons c cs ih =>
    rw [splitAtFirst] at h
    by_cases hc : c = sep
    · rw [if_pos hc] at h
      obtain ⟨rfl, rfl⟩ := Prod.mk.injEq .. ▸ (Option.some.inj h)
      subst hc
      exact ⟨rfl, by simp⟩
    · rw [if_neg hc] at h
      cases hr : splitAtFirst sep cs with
      | none => rw [hr] at h; cases h
      | some p =>
        obtain ⟨a0, b0⟩ := p
        rw [hr] at h
        have h2 : (c :: a0, b0) = (a, b) := Option.some.inj h
        obtain ⟨rfl, rfl⟩ := Prod.mk.injEq .. ▸ h2
        obtain ⟨h3, h4⟩ := ih hr
        constructor
        · rw [List.cons_append, ← h3]
        · intro hm
          rcases List.mem_cons.mp hm with hm | hm
          · exact hc hm.symm
          · exact h4 hm

theorem splitAtFirst_sep_head (sep : Char) (cs : List Char) :
    splitAtFirst sep (sep :: cs) = some ([], cs) := by
  rw [splitAtFirst, if_pos rfl]

theorem splitAtFirst_fst_head (sep c : Char) (cs : List Char) (h : c ≠ sep) :
    splitAtFirst sep (c :: cs) = none ∨
      ∃ a b, splitAtFirst sep (c :: cs) = some (c :: a, b) := by
  rw [splitAtFirst, if_neg h]
  cases splitAtFirst sep cs with
  | none => exact Or.inl rfl
  | some p => exact Or.inr ⟨p.1, p.2, rfl⟩

theorem takeWhile_app {p : Char → Bool} {l1 : List Char} (h : ∀ c ∈ l1, p c = true)
    {c0 : Char} (hc : p c0 = false) (l2 : List Char) :
    (l1 ++ c0 :: l2).takeWhile p = l1 := by
  induction l1 with
  | nil => simp [List.takeWhile_cons, hc]
  | cons x xs ih =>
    rw [List.cons_append, List.takeWhile_cons, if_pos (h x (List.mem_cons_self x xs)),
      ih (fun c hcm => h c (List.mem_cons_of_mem x hcm))]

theorem drop_takeWhile_length (p : Char → Bool) (l : List Char) :
    l.drop (l.takeWhile p).length = l.dropWhile p := by
  induction l with
  | nil => rfl
  | cons x xs ih =>
    rw [List.takeWhile_cons, List.dropWhile_cons]
    by_cases hp : p x = true
    · rw [if_pos hp, if_pos hp]
      simpa using ih
    · rw [if_neg hp, if_neg hp]
      simp

theorem containsSeq_head_not {c : Char} (pat : List Char) {l : List Char} (h : c ∉ l) :
    containsSeq (c :: pat) l = false := by
  induction l with
  | nil => rfl
  | cons x xs ih =>
    have hx : c ≠ x := fun he => h (he ▸ List.mem_cons_self x xs)
    rw [containsSeq]
    have h1 : prefixAt (c :: pat) (x :: xs) = false := by
      rw [prefixAt]
      simp [hx]
    rw [h1, ih (fun hm => h (List.mem_cons_of_mem x hm))]
    rfl

theorem containsSub_sep_false {s : String} (h : ':' ∉ s.data) :
    containsSub s "://" = false :=
  containsSeq_head_not ['/', '/'] h

theorem containsSeq_sep_app (l : List Char) :
    containsSeq [':', '/', '/'] (':' :: '/' :: '/' :: l) = true := by
  rw [containsSeq]
  have h1 : prefixAt [':', '/', '/'] (':' :: '/' :: '/' :: l) = true := by
    simp [prefixAt]
  rw [h1]
  rfl

theorem takeWhile_length_lt {p : Char → Bool} {l : List Char}
    (h : ∃ x ∈ l, p x = false) : (l.takeWhile p).length < l.length := by
  induction l with
  | nil =>
    obtain ⟨x, hx, _⟩ := h
    cases hx
  | cons a as ih =>
    rw [List.takeWhile_cons]
    by_cases hp : p a = true
    · rw [if_pos hp]
      obtain ⟨x, hx, hpx⟩ := h
      rcases List.mem_cons.mp hx with rfl | hx2
    -- x = a contradicts hp; x ∈ as recurses
      · rw [hp] at hpx; cases hpx
      · have := ih ⟨x, hx2, hpx⟩
        simpa [Nat.succ_lt_succ_iff] using this
    · rw [if_neg hp]
      simp

theorem splitParams_fst_head (c : Char) (cs : List Char) :
    (splitParams (c :: cs)).1 = [] ∨ ∃ ds, (splitParams (c :: cs)).1 = c :: ds := by
  unfold splitParams
  by_cases hsl : (c :: cs).contains '/'
  · rw [if_pos hsl]
    dsimp only
    have hblt : ((c :: cs).reverse.takeWhile (· ≠ '/')).reverse.length < (c :: cs).length := by
      rw [List.length_reverse]
      have h2 : (c :: cs).length = (c :: cs).reverse.length := (List.length_reverse _).symm
      rw [h2]
      apply takeWhile_length_lt
      have hm : '/' ∈ (c :: cs).reverse := List.mem_reverse.mpr (by simpa using hsl)
      exact ⟨'/', hm, by simp⟩
    have hk : ∃ m, (c :: cs).length - ((c :: cs).reverse.takeWhile (· ≠ '/')).reverse.length
        = m + 1 := by
      have h1 : 0 < (c :: cs).length -
          ((c :: cs).reverse.takeWhile (· ≠ '/')).reverse.length := by omega
      exact ⟨_, (Nat.succ_pred_eq_of_pos h1).symm⟩
    obtain ⟨m, hm⟩ := hk
    cases hsp : splitAtFirst ';' ((c :: cs).reverse.takeWhile (· ≠ '/')).reverse with
    | none =>
      simp only [hsp]
      exact Or.inr ⟨cs, rfl⟩
    | some p =>
      obtain ⟨x, y⟩ := p
      simp only [hsp]
      rw [hm, List.take_succ_cons]
      exact Or.inr ⟨List.take m cs ++ x, rfl⟩
  · rw [if_neg hsl]
    cases hsp : splitAtFirst ';' (c :: cs) with
    | none => exact Or.inr ⟨cs, rfl⟩
    | some p =>
      obtain ⟨a, b⟩ := p
      obtain ⟨hdec, hnm⟩ := splitAtFirst_some hsp
      cases a with
      | nil => exact Or.inl rfl
      | cons a0 as =>
        have : c = a0 := by
          rw [List.cons_append] at hdec
          exact (List.cons.injEq .. ▸ hdec).1
        exact Or.inr ⟨as, by rw [this]⟩

/-! ## Basic facts about the orchestrator -/

theorem attemptScrape_error (fetch : String → Except String PageLinks) (u : String) :
    attemptScrape fetch u = Except.error typeErrorMsg := rfl

theorem scrapeAll_eq (fetch : String → Except String PageLinks) (us : List String) :
    scrapeAll fetch us =
      (us.map (fun u => (u, ([] : LinkMap))),
       us.map (fun u => (u, ([] : LinkMap))),
       us.map (fun u => "Failed to scrape " ++ u ++ ": " ++ typeErrorMsg)) := by
  induction us with
  | nil => rfl
  | cons u us ih => simp [scrapeAll, ih, attemptScrape_error]

theorem map_fst_pair_empty (l : List String) :
    (l.map (fun u => (u, ([] : LinkMap)))).map Prod.fst = l := by
  induction l with
  | nil => rfl
  | cons a l ih => simp [ih]

theorem runBatch_ok (fetch : String → Except String PageLinks) (tokens : List String)
    (out : BatchOutcome) (h : runBatch fetch tokens = Except.ok out) :
    out = { normalized := (normalizeAll (pyDedup tokens)).1
            internalBlocks := (scrapeAll fetch (normalizeAll (pyDedup tokens)).1).1
            externalBlocks := (scrapeAll fetch (normalizeAll (pyDedup tokens)).1).2.1
            errors := (normalizeAll (pyDedup tokens)).2 ++
              (scrapeAll fetch (normalizeAll (pyDedup tokens)).1).2.2
            inputCount := (pyDedup tokens).length
            normalizedCount := (normalizeAll (pyDedup tokens)).1.length } := by
  unfold runBatch at h
  split at h
  · exact absurd h (by simp)
  · dsimp only at h
    split at h
    · exact absurd h (by simp)
    · exact (Except.ok.inj h).symm

/-! ## Claim theorems (orchestrator) -/

/-- C1: the spec requires that with `ignoreHeaderFooterNav=true` anchors
inside header/footer/nav landmarks be skipped.  The code never implements
this: `scrape_links` has no such parameter (its parameters are exactly
`source_url` and `timeout_s`), so the call site's
`ignore_header_footer=...` keyword makes every extraction attempt raise
`TypeError` before any page is processed, and no filtering code exists. -/
theorem claim_C1_flag_not_implemented :
    scrapeLinksParams.contains "ignore_header_footer" = false ∧
    (∀ fetch u, attemptScrape fetch u = Except.error typeErrorMsg) :=
  ⟨rfl, fun _ _ => rfl⟩

/-- C2: every call `scrape_links(u, ignore_header_footer=...)` raises
`TypeError` since `scrape_links` accepts only `source_url` and
`timeout_s`; consequently every successful batch records, for every
normalized URL, empty internal and external mappings together with an
error string `"Failed to scrape <u>: ..."`, and no page content is ever
extracted. -/
theorem claim_C2_call_raises_type_error (fetch : String → Except String PageLinks)
    (tokens : List String) (out : BatchOutcome)
    (h : runBatch fetch tokens = Except.ok out) :
    (∀ u, attemptScrape fetch u = Except.error typeErrorMsg) ∧
    out.internalBlocks = out.normalized.map (fun u => (u, ([] : LinkMap))) ∧
    out.externalBlocks = out.normalized.map (fun u => (u, ([] : LinkMap))) ∧
    (∀ u ∈ out.normalized,
      ("Failed to scrape " ++ u ++ ": " ++ typeErrorMsg) ∈ out.errors) := by
  obtain rfl := runBatch_ok fetch tokens out h
  refine ⟨fun u => rfl, ?_, ?_, ?_⟩
  · simp [scrapeAll_eq]
  · simp [scrapeAll_eq]
  · intro u hu
    simp only [scrapeAll_eq, List.mem_append]
    exact Or.inr (List.mem_map.mpr ⟨u, hu, rfl⟩)

/-- C2 witness: a concrete one-URL batch evaluates to empty mappings. -/
theorem claim_C2_witness :
    runBatch (fun _ => Except.error "") ["us/slots"] = Except.ok outC2 ∧
    outC2.internalBlocks = outC2.normalized.map (fun u => (u, ([] : LinkMap))) :=
  ⟨by decide, (claim_C2_call_raises_type_error (fun _ => Except.error "")
    ["us/slots"] outC2 (by decide)).2.1⟩

/-- C3 counterexample: the handler validates the batch size before the
dedup (app.py line 59 precedes line 62), so 151 raw tokens are rejected
with `BadBatchSize` even though they deduplicate to 150 ≤ 150 — contrary
to the claim that the gate applies to the post-dedup count. -/
theorem claim_C3_counterexample :
    c3tokens.length = 151 ∧ (pyDedup c3tokens).length = 150 ∧
    runBatch (fun _ => Except.error "") c3tokens = Except.error FatalError.badBatchSize := by
  refine ⟨by decide, by decide, by decide⟩

/-- C3 amended: the batch fails with `BadBatchSize` exactly when the
number of raw tokens BEFORE deduplication lies outside [1, 150];
deduplication happens only after the gate, so a batch of 151 raw tokens is
rejected even when it deduplicates to at most 150. -/
theorem claim_C3_amended_gate_is_pre_dedup (fetch : String → Except String PageLinks)
    (tokens : List String) :
    runBatch fetch tokens = Except.error FatalError.badBatchSize ↔
      (tokens.length < 1 ∨ 150 < tokens.length) := by
  constructor
  · intro h
    unfold runBatch at h
    split at h
    · next hc => by_contra hn; exact hc ⟨by omega, by omega⟩
    · dsimp only at h
      split at h
      · exact absurd (Except.error.inj h) (by intro hx; cases hx)
      · exact absurd h (by simp)
  · intro h
    unfold runBatch
    rw [if_pos (by omega)]

/-- C6: the bare path, slash-prefixed path, and full-URL spellings of
`us/slots` all normalize to the identical canonical URL. -/
theorem claim_C6_three_spellings_agree :
    normalize_to_casinos "us/slots" = Except.ok "https://www.casinos.com/us/slots" ∧
    normalize_to_casinos "/us/slots" = Except.ok "https://www.casinos.com/us/slots" ∧
    normalize_to_casinos "https://www.casinos.com/us/slots" =
      Except.ok "https://www.casinos.com/us/slots" :=
  ⟨by decide, by decide, by decide⟩

/-- C7: one URL's extraction failure never prevents the others: every
normalized URL contributes exactly one entry, in order, to each block
list; a URL whose extraction raises gets empty mappings and the error
string `"Failed to scrape <u>: <e>"`; and the handler returns a non-`ok`
outcome only for the two fatal conditions (bad batch size, no valid
inputs), never for per-URL failures. -/
theorem claim_C7_failures_isolated (fetch : String → Except String PageLinks)
    (tokens : List String) :
    (∀ out, runBatch fetch tokens = Except.ok out →
      out.internalBlocks.map Prod.fst = out.normalized ∧
      out.externalBlocks.map Prod.fst = out.normalized ∧
      (∀ u ∈ out.normalized, ∀ e, attemptScrape fetch u = Except.error e →
        (u, ([] : LinkMap)) ∈ out.internalBlocks ∧
        (u, ([] : LinkMap)) ∈ out.externalBlocks ∧
        ("Failed to scrape " ++ u ++ ": " ++ e) ∈ out.errors)) ∧
    (∀ err, runBatch fetch tokens = Except.error err →
      err = FatalError.badBatchSize ∨ err = FatalError.noValidInputs) ∧
    ((∃ err, runBatch fetch tokens = Except.error err) ↔
      (tokens.length < 1 ∨ 150 < tokens.length ∨
        (normalizeAll (pyDedup tokens)).1 = [])) := by
  refine ⟨?_, fun err _ => by cases err <;> simp, ?_⟩
  · intro out h
    obtain rfl := runBatch_ok fetch tokens out h
    refine ⟨?_, ?_, ?_⟩
    · show ((scrapeAll fetch (normalizeAll (pyDedup tokens)).1).1).map Prod.fst = _
      rw [scrapeAll_eq]
      exact map_fst_pair_empty _
    · show ((scrapeAll fetch (normalizeAll (pyDedup tokens)).1).2.1).map Prod.fst = _
      rw [scrapeAll_eq]
      exact map_fst_pair_empty _
    · intro u hu e he
      have hte : e = typeErrorMsg := by
        have h2 := attemptScrape_error fetch u
        rw [h2] at he
        exact (Except.error.inj he).symm
      subst hte
      refine ⟨?_, ?_, ?_⟩
      · simp only [scrapeAll_eq]
        exact List.mem_map.mpr ⟨u, hu, rfl⟩
      · simp only [scrapeAll_eq]
        exact List.mem_map.mpr ⟨u, hu, rfl⟩
      · simp only [scrapeAll_eq, List.mem_append]
        exact Or.inr (List.mem_map.mpr ⟨u, hu, rfl⟩)
  · constructor
    · rintro ⟨err, h⟩
      unfold runBatch at h
      split at h
      · next hc =>
          rcases Nat.lt_or_ge tokens.length 1 with h1 | h1
          · exact Or.inl h1
          · refine Or.inr (Or.inl ?_)
            by_contra h3
            exact hc ⟨h1, by omega⟩
      · dsimp only at h
        split at h
        · right; right; assumption
        · exact absurd h (by simp)
    · intro h
      unfold runBatch
      by_cases hs : 1 ≤ tokens.length ∧ tokens.length ≤ 150
      · rw [if_neg (by simpa using hs)]
        dsimp only
        have hn : (normalizeAll (pyDedup tokens)).1 = [] := by
          rcases h with h | h | h
          · omega
          · omega
          · exact h
        rw [if_pos hn]
        exact ⟨FatalError.noValidInputs, rfl⟩
      · rw [if_pos hs]
        exact ⟨FatalError.badBatchSize, rfl⟩

/-- C7 witness: a concrete two-URL batch with one bad token: the good
token still produces its (empty-mapping) entry and error, and the batch
succeeds. -/
theorem claim_C7_witness :
    ∃ out, runBatch (fun _ => Except.error "") ["us/slots", "https://evil.com/x"] =
        Except.ok out ∧
      out.internalBlocks.map Prod.fst = out.normalized := by
  refine ⟨_, rfl, ?_⟩
  exact ((claim_C7_failures_isolated (fun _ => Except.error "")
    ["us/slots", "https://evil.com/x"]).1 _ rfl).1

/-- C8: the code's two-branch classification (primary `is_internal` check
on the raw href plus host check on the resolved URL, with a fallback host
re-check in the else branch) is extensionally equal to the spec's single
rule: internal iff the resolved URL's lowercased host is one of the two
accepted target hosts; and every processed (non-skipped) anchor is placed
according to that single rule. -/
theorem claim_C8_two_branch_equals_single_rule :
    (∀ href_raw abs_href, classifyCode href_raw abs_href = classifySpecRule abs_href) ∧
    (∀ src st a, anchorSkipped a = false →
      processAnchor src st a =
        (if classifySpecRule (pyUrljoin src (pyStrip a.href)) = true then
          (mapAdd st.1 (pyUrljoin src (pyStrip a.href)) (extract_anchor_text a), st.2)
         else
          (st.1, mapAdd st.2 (pyUrljoin src (pyStrip a.href)) (extract_anchor_text a)))) := by
  have hcs : ∀ s, classifySpecRule s = absHostInternal s := fun s => rfl
  constructor
  · intro href_raw abs_href
    rw [hcs]
    unfold classifyCode
    cases h : absHostInternal abs_href <;> cases hi : is_internal href_raw <;> simp [h, hi]
  · intro src st a hskip
    unfold processAnchor
    rw [hskip]
    simp only [Bool.false_eq_true, if_false]
    rw [hcs]
    cases h : absHostInternal (pyUrljoin src (pyStrip a.href)) <;>
      cases hi : is_internal (pyStrip a.href) <;> simp [h, hi]

/-- C8 witness: a concrete non-skipped anchor is placed by the single
host rule. -/
theorem claim_C8_witness :
    anchorSkipped ⟨"/about", "About", none, none⟩ = false ∧
    processAnchor "https://www.casinos.com/us/slots" ([], [])
        ⟨"/about", "About", none, none⟩ =
      (if classifySpecRule (pyUrljoin "https://www.casinos.com/us/slots"
          (pyStrip "/about")) = true then
        (mapAdd [] (pyUrljoin "https://www.casinos.com/us/slots" (pyStrip "/about"))
          (extract_anchor_text ⟨"/about", "About", none, none⟩), [])
       else
        ([], mapAdd [] (pyUrljoin "https://www.casinos.com/us/slots" (pyStrip "/about"))
          (extract_anchor_text ⟨"/about", "About", none, none⟩))) :=
  ⟨by decide, claim_C8_two_branch_equals_single_rule.2
    "https://www.casinos.com/us/slots" ([], []) ⟨"/about", "About", none, none⟩ (by decide)⟩

/-! ## Facts about the extraction maps (C9, C10) -/

theorem anchorSkipped_false {a : Anchor} (h : ¬ anchorSkipped a = true) :
    anchorSkipped a = false := by
  revert h; cases anchorSkipped a <;> simp

theorem processAnchor_skip (src : String) (st : LinkMap × LinkMap) (a : Anchor)
    (h : anchorSkipped a = true) : processAnchor src st a = st := by
  unfold processAnchor
  rw [h]
  simp

theorem processAnchor_go (src : String) (st : LinkMap × LinkMap) (a : Anchor)
    (h : anchorSkipped a = false) :
    processAnchor src st a =
      if absHostInternal (pyUrljoin src (pyStrip a.href)) = true then
        (mapAdd st.1 (pyUrljoin src (pyStrip a.href)) (extract_anchor_text a), st.2)
      else
        (st.1, mapAdd st.2 (pyUrljoin src (pyStrip a.href)) (extract_anchor_text a)) := by
  unfold processAnchor
  rw [h]
  simp only [Bool.false_eq_true, if_false]
  cases habs : absHostInternal (pyUrljoin src (pyStrip a.href)) <;>
    cases hi : is_internal (pyStrip a.href) <;> simp [habs, hi]

theorem mapAdd_nil (k v : String) : mapAdd [] k v = [(k, [v])] := rfl

theorem mapAdd_cons_hit (rest : LinkMap) (k v : String) (vs : List String) :
    mapAdd ((k, vs) :: rest) k v = (k, setAdd vs v) :: rest := by
  simp [mapAdd]

theorem mapAdd_cons_miss (rest : LinkMap) (kk k v : String) (vs : List String)
    (h : kk ≠ k) :
    mapAdd ((kk, vs) :: rest) k v = (kk, vs) :: mapAdd rest k v := by
  simp [mapAdd, h]

theorem lookupM_cons_hit (rest : LinkMap) (k : String) (vs : List String) :
    lookupM ((k, vs) :: rest) k = some vs := by
  simp [lookupM]

theorem lookupM_cons_miss (rest : LinkMap) (kk u : String) (vs : List String)
    (h : kk ≠ u) : lookupM ((kk, vs) :: rest) u = lookupM rest u := by
  simp [lookupM, h]

theorem lookupM_mapAdd_self (m : LinkMap) (k v : String) :
    lookupM (mapAdd m k v) k = some (setAdd ((lookupM m k).getD []) v) := by
  induction m with
  | nil =>
    rw [mapAdd_nil, lookupM_cons_hit]
    simp [lookupM, setAdd]
  | cons kv rest ih =>
    obtain ⟨kk, vs⟩ := kv
    by_cases h : kk = k
    · subst h
      rw [mapAdd_cons_hit, lookupM_cons_hit, lookupM_cons_hit]
      rfl
    · rw [mapAdd_cons_miss rest kk k v vs h, lookupM_cons_miss _ _ _ _ h,
        lookupM_cons_miss _ _ _ _ h, ih]

theorem lookupM_mapAdd_ne (m : LinkMap) (k v u : String) (h : k ≠ u) :
    lookupM (mapAdd m k v) u = lookupM m u := by
  induction m with
  | nil =>
    rw [mapAdd_nil, lookupM_cons_miss _ _ _ _ h]
  | cons kv rest ih =>
    obtain ⟨kk, vs⟩ := kv
    by_cases hk : kk = k
    · subst hk
      rw [mapAdd_cons_hit, lookupM_cons_miss _ _ _ _ h, lookupM_cons_miss _ _ _ _ h]
    · rw [mapAdd_cons_miss rest kk k v vs hk]
      by_cases hu : kk = u
      · subst hu
        rw [lookupM_cons_hit, lookupM_cons_hit]
      · rw [lookupM_cons_miss _ _ _ _ hu, lookupM_cons_miss _ _ _ _ hu, ih]

theorem keys_mapAdd (m : LinkMap) (k v x : String) :
    x ∈ (mapAdd m k v).map Prod.fst ↔ x ∈ m.map Prod.fst ∨ x = k := by
  induction m with
  | nil => simp [mapAdd_nil]
  | cons kv rest ih =>
    obtain ⟨kk, vs⟩ := kv
    by_cases h : kk = k
    · subst h
      rw [mapAdd_cons_hit]
      simp only [List.map_cons, List.mem_cons]
      tauto
    · rw [mapAdd_cons_miss rest kk k v vs h]
      simp only [List.map_cons, List.mem_cons, ih]
      tauto

theorem keys_mapAdd_nodup (m : LinkMap) (k v : String)
    (h : (m.map Prod.fst).Nodup) : ((mapAdd m k v).map Prod.fst).Nodup := by
  induction m with
  | nil => simp [mapAdd_nil]
  | cons kv rest ih =>
    obtain ⟨kk, vs⟩ := kv
    simp only [List.map_cons, List.nodup_cons] at h
    by_cases hk : kk = k
    · subst hk
      rw [mapAdd_cons_hit]
      simp only [List.map_cons, List.nodup_cons]
      exact ⟨h.1, h.2⟩
    · rw [mapAdd_cons_miss rest kk k v vs hk]
      simp only [List.map_cons, List.nodup_cons]
      refine ⟨?_, ih h.2⟩
      intro hx
      rcases (keys_mapAdd rest k v kk).mp hx with hx | hx
      · exact h.1 hx
      · exact hk hx

theorem bucket_nil (o : Option (List String)) : bucket o [] = o := by
  cases o <;> rfl

theorem bucket_cons (o : Option (List String)) (t : String) (ts : List String) :
    bucket o (t :: ts) = bucket (some (setAdd (o.getD []) t)) ts := by
  cases o <;> cases ts <;> rfl

theorem textsFor_cons_skip (src : String) (a : Anchor) (anchors : List Anchor)
    (u : String) (h : anchorSkipped a = true) :
    textsFor src (a :: anchors) u = textsFor src anchors u := by
  simp [textsFor, List.filter_cons, h]

theorem textsFor_cons_hit (src : String) (a : Anchor) (anchors : List Anchor)
    (u : String) (h : anchorSkipped a = false)
    (he : pyUrljoin src (pyStrip a.href) = u) :
    textsFor src (a :: anchors) u = extract_anchor_text a :: textsFor src anchors u := by
  simp [textsFor, List.filter_cons, h, he]

theorem textsFor_cons_miss (src : String) (a : Anchor) (anchors : List Anchor)
    (u : String) (he : pyUrljoin src (pyStrip a.href) ≠ u) :
    textsFor src (a :: anchors) u = textsFor src anchors u := by
  simp [textsFor, List.filter_cons, he]

theorem fold_lookup_internal (src u : String) (hu : absHostInternal u = true)
    (anchors : List Anchor) :
    ∀ im em : LinkMap,
      lookupM ((anchors.foldl (processAnchor src) (im, em)).1) u =
        bucket (lookupM im u) (textsFor src anchors u) := by
  induction anchors with
  | nil => intro im em; simp [textsFor, bucket_nil]
  | cons a anchors ih =>
    intro im em
    rw [List.foldl_cons]
    by_cases hsk : anchorSkipped a = true
    · rw [processAnchor_skip src (im, em) a hsk, textsFor_cons_skip src a anchors u hsk]
      exact ih im em
    · have hsk2 : anchorSkipped a = false := anchorSkipped_false hsk
      rw [processAnchor_go src (im, em) a hsk2]
      by_cases habs : absHostInternal (pyUrljoin src (pyStrip a.href)) = true
      · rw [if_pos habs]
        by_cases heq : pyUrljoin src (pyStrip a.href) = u
        · rw [textsFor_cons_hit src a anchors u hsk2 heq, bucket_cons]
          rw [ih _ em, heq, lookupM_mapAdd_self]
        · rw [textsFor_cons_miss src a anchors u heq]
          rw [ih _ em, lookupM_mapAdd_ne _ _ _ _ heq]
      · rw [if_neg habs]
        have hne : pyUrljoin src (pyStrip a.href) ≠ u := by
          intro he; rw [he] at habs; exact habs hu
        rw [textsFor_cons_miss src a anchors u hne]
        exact ih im _

theorem fold_lookup_external (src u : String) (hu : absHostInternal u = false)
    (anchors : List Anchor) :
    ∀ im em : LinkMap,
      lookupM ((anchors.foldl (processAnchor src) (im, em)).2) u =
        bucket (lookupM em u) (textsFor src anchors u) := by
  induction anchors with
  | nil => intro im em; simp [textsFor, bucket_nil]
  | cons a anchors ih =>
    intro im em
    rw [List.foldl_cons]
    by_cases hsk : anchorSkipped a = true
    · rw [processAnchor_skip src (im, em) a hsk, textsFor_cons_skip src a anchors u hsk]
      exact ih im em
    · have hsk2 : anchorSkipped a = false := anchorSkipped_false hsk
      rw [processAnchor_go src (im, em) a hsk2]
      by_cases habs : absHostInternal (pyUrljoin src (pyStrip a.href)) = true
      · rw [if_pos habs]
        have hne : pyUrljoin src (pyStrip a.href) ≠ u := by
          intro he; rw [he] at habs; rw [habs] at hu; cases hu
        rw [textsFor_cons_miss src a anchors u hne]
        exact ih _ em
      · rw [if_neg habs]
        by_cases heq : pyUrljoin src (pyStrip a.href) = u
        · rw [textsFor_cons_hit src a anchors u hsk2 heq, bucket_cons]
          rw [ih im _, heq, lookupM_mapAdd_self]
        · rw [textsFor_cons_miss src a anchors u heq]
          rw [ih im _, lookupM_mapAdd_ne _ _ _ _ heq]

theorem fold_keys_internal (src : String) (anchors : List Anchor) :
    ∀ im em u, u ∈ ((anchors.foldl (processAnchor src) (im, em)).1).map Prod.fst →
      u ∈ im.map Prod.fst ∨ absHostInternal u = true := by
  induction anchors with
  | nil => intro im em u h; exact Or.inl h
  | cons a anchors ih =>
    intro im em u h
    rw [List.foldl_cons] at h
    by_cases hsk : anchorSkipped a = true
    · rw [processAnchor_skip src (im, em) a hsk] at h
      exact ih im em u h
    · rw [processAnchor_go src (im, em) a (anchorSkipped_false hsk)] at h
      by_cases habs : absHostInternal (pyUrljoin src (pyStrip a.href)) = true
      · rw [if_pos habs] at h
        rcases ih _ _ u h with h2 | h2
        · rcases (keys_mapAdd im _ _ u).mp h2 with h3 | h3
          · exact Or.inl h3
          · subst h3; exact Or.inr habs
        · exact Or.inr h2
      · rw [if_neg habs] at h
        exact ih im _ u h

theorem fold_keys_external (src : String) (anchors : List Anchor) :
    ∀ im em u, u ∈ ((anchors.foldl (processAnchor src) (im, em)).2).map Prod.fst →
      u ∈ em.map Prod.fst ∨ absHostInternal u = false := by
  induction anchors with
  | nil => intro im em u h; exact Or.inl h
  | cons a anchors ih =>
    intro im em u h
    rw [List.foldl_cons] at h
    by_cases hsk : anchorSkipped a = true
    · rw [processAnchor_skip src (im, em) a hsk] at h
      exact ih im em u h
    · rw [processAnchor_go src (im, em) a (anchorSkipped_false hsk)] at h
      by_cases habs : absHostInternal (pyUrljoin src (pyStrip a.href)) = true
      · rw [if_pos habs] at h
        exact ih _ em u h
      · rw [if_neg habs] at h
        rcases ih im _ u h with h2 | h2
        · rcases (keys_mapAdd em _ _ u).mp h2 with h3 | h3
          · exact Or.inl h3
          · subst h3
            right
            revert habs
            cases absHostInternal (pyUrljoin src (pyStrip a.href)) <;> simp
        · exact Or.inr h2

theorem fold_keys_nodup_internal (src : String) (anchors : List Anchor) :
    ∀ im em, (im.map Prod.fst).Nodup →
      (((anchors.foldl (processAnchor src) (im, em)).1).map Prod.fst).Nodup := by
  induction anchors with
  | nil => intro im em h; exact h
  | cons a anchors ih =>
    intro im em h
    rw [List.foldl_cons]
    by_cases hsk : anchorSkipped a = true
    · rw [processAnchor_skip src (im, em) a hsk]
      exact ih im em h
    · rw [processAnchor_go src (im, em) a (anchorSkipped_false hsk)]
      by_cases habs : absHostInternal (pyUrljoin src (pyStrip a.href)) = true
      · rw [if_pos habs]
        exact ih _ em (keys_mapAdd_nodup im _ _ h)
      · rw [if_neg habs]
        exact ih im _ h

theorem keys_sortvals (m : LinkMap) :
    (m.map (fun kv => (kv.1, sortStrings kv.2))).map Prod.fst = m.map Prod.fst := by
  induction m with
  | nil => rfl
  | cons kv rest ih => simp [ih]

theorem lookup_sortvals (m : LinkMap) (u : String) :
    lookupM (m.map (fun kv => (kv.1, sortStrings kv.2))) u =
      (lookupM m u).map sortStrings := by
  induction m with
  | nil => rfl
  | cons kv rest ih =>
    obtain ⟨kk, vs⟩ := kv
    by_cases h : kk = u
    · simp [lookupM, h]
    · simp [lookupM, h, ih]

theorem lookupM_mem_keys (m : LinkMap) (u : String) (l : List String)
    (h : lookupM m u = some l) : u ∈ m.map Prod.fst := by
  induction m with
  | nil => cases h
  | cons kv rest ih =>
    obtain ⟨kk, vs⟩ := kv
    by_cases hk : kk = u
    · subst hk; simp
    · simp only [lookupM, if_neg hk] at h
      simp [ih h]

theorem setAdd_mem (l : List String) (v x : String) :
    x ∈ setAdd l v ↔ x ∈ l ∨ x = v := by
  unfold setAdd
  by_cases h : v ∈ l
  · simp only [if_pos h]
    constructor
    · exact Or.inl
    · rintro (hx | rfl)
      · exact hx
      · exact h
  · simp [if_neg h]

theorem setAdd_nodup (l : List String) (v : String) (h : l.Nodup) :
    (setAdd l v).Nodup := by
  unfold setAdd
  by_cases hv : v ∈ l
  · rw [if_pos hv]; exact h
  · rw [if_neg hv, List.nodup_append]
    refine ⟨h, List.nodup_singleton v, ?_⟩
    intro x hx hxv
    rw [List.mem_singleton] at hxv
    subst hxv
    exact hv hx

theorem foldl_setAdd_mem (ts : List String) :
    ∀ init x, x ∈ ts.foldl setAdd init ↔ x ∈ init ∨ x ∈ ts := by
  induction ts with
  | nil => intro init x; simp
  | cons t ts ih =>
    intro init x
    rw [List.foldl_cons, ih, setAdd_mem]
    simp only [List.mem_cons]
    tauto

theorem foldl_setAdd_nodup (ts : List String) :
    ∀ init, init.Nodup → (ts.foldl setAdd init).Nodup := by
  induction ts with
  | nil => intro init h; exact h
  | cons t ts ih =>
    intro init h
    exact ih _ (setAdd_nodup init t h)

/-- C10: in every `PageLinks` produced by the extraction loop the internal
and external key sets are disjoint: classification of an occurrence
depends only on the resolved URL, so no resolved URL ever lands in both
mappings. -/
theorem claim_C10_internal_external_disjoint (src : String) (anchors : List Anchor)
    (u : String) (h : u ∈ (scrape_links_body src anchors).internal.map Prod.fst) :
    u ∉ (scrape_links_body src anchors).external.map Prod.fst := by
  intro hx
  unfold scrape_links_body at h hx
  dsimp only at h hx
  rw [keys_sortvals] at h hx
  rcases fold_keys_internal src anchors [] [] u h with h2 | h2
  · exact absurd h2 (by simp)
  · rcases fold_keys_external src anchors [] [] u hx with h3 | h3
    · exact absurd h3 (by simp)
    · rw [h2] at h3; cases h3

/-- C10 witness: on a concrete page, the about-link key appears among the
internal keys and (by the theorem) not among the external ones. -/
theorem claim_C10_witness :
    "https://www.casinos.com/about" ∈
      ((scrape_links_body "https://www.casinos.com/us/slots"
        [⟨"/about", "About", none, none⟩,
         ⟨"https://partner.example.com/offer", "Offer", none, none⟩]).internal.map Prod.fst) ∧
    "https://www.casinos.com/about" ∉
      ((scrape_links_body "https://www.casinos.com/us/slots"
        [⟨"/about", "About", none, none⟩,
         ⟨"https://partner.example.com/offer", "Offer", none, none⟩]).external.map Prod.fst) :=
  ⟨by decide, claim_C10_internal_external_disjoint
    "https://www.casinos.com/us/slots"
    [⟨"/about", "About", none, none⟩,
     ⟨"https://partner.example.com/offer", "Offer", none, none⟩]
    "https://www.casinos.com/about" (by decide)⟩

theorem char_eq_of_toNat_eq {a b : Char} (h : a.toNat = b.toNat) : a = b :=
  Char.eq_of_val_eq (UInt32.ext h)

theorem listLe_total (a : List Char) : ∀ b, listLe a b = true ∨ listLe b a = true := by
  induction a with
  | nil => intro b; left; rfl
  | cons x xs ih =>
    intro b
    cases b with
    | nil => right; rfl
    | cons y ys =>
      by_cases h : x = y
      · subst h
        simp only [listLe, if_pos rfl]
        exact ih ys
      · have h2 : y ≠ x := fun he => h he.symm
        rcases Nat.lt_trichotomy x.toNat y.toNat with h3 | h3 | h3
        · left
          simp [listLe, h, h3]
        · exact absurd (char_eq_of_toNat_eq h3) h
        · right
          simp [listLe, h2, h3]

theorem listLe_trans (a : List Char) :
    ∀ b c, listLe a b = true → listLe b c = true → listLe a c = true := by
  induction a with
  | nil => intro b c _ _; rfl
  | cons x xs ih =>
    intro b c h1 h2
    cases b with
    | nil => exact absurd h1 (by simp [listLe])
    | cons y ys =>
      cases c with
      | nil => exact absurd h2 (by simp [listLe])
      | cons z zs =>
        by_cases hxy : x = y
        · subst hxy
          simp only [listLe, if_pos rfl] at h1
          by_cases hyz : x = z
          · subst hyz
            simp only [listLe, if_pos rfl] at h2 ⊢
            exact ih ys zs h1 h2
          · simp only [listLe, if_neg hyz] at h2 ⊢
            exact h2
        · simp only [listLe, if_neg hxy] at h1
          have hlt1 : x.toNat < y.toNat := of_decide_eq_true h1
          by_cases hyz : y = z
          · have hxz : x ≠ z := fun he => hxy (he.trans hyz.symm)
            simp only [listLe, if_neg hxz]
            rw [← hyz]
            exact decide_eq_true hlt1
          · simp only [listLe, if_neg hyz] at h2
            have hlt2 : y.toNat < z.toNat := of_decide_eq_true h2
            have hlt : x.toNat < z.toNat := Nat.lt_trans hlt1 hlt2
            have hxz : x ≠ z := fun he => by
              rw [he] at hlt
              exact Nat.lt_irrefl _ hlt
            simp only [listLe, if_neg hxz]
            exact decide_eq_true hlt

theorem listLe_antisymm (a : List Char) :
    ∀ b, listLe a b = true → listLe b a = true → a = b := by
  induction a with
  | nil =>
    intro b h1 h2
    cases b with
    | nil => rfl
    | cons y ys => exact absurd h2 (by simp [listLe])
  | cons x xs ih =>
    intro b h1 h2
    cases b with
    | nil => exact absurd h1 (by simp [listLe])
    | cons y ys =>
      by_cases hxy : x = y
      · subst hxy
        simp only [listLe, if_pos rfl] at h1 h2
        rw [ih ys h1 h2]
      · have hyx : y ≠ x := fun he => hxy he.symm
        simp only [listLe, if_neg hxy] at h1
        simp only [listLe, if_neg hyx] at h2
        have hlt1 : x.toNat < y.toNat := of_decide_eq_true h1
        have hlt2 : y.toNat < x.toNat := of_decide_eq_true h2
        exact absurd (Nat.lt_trans hlt1 hlt2) (Nat.lt_irrefl _)

theorem strLe_total (a b : String) : strLe a b = true ∨ strLe b a = true :=
  listLe_total a.data b.data

theorem strLe_trans {a b c : String} (h1 : strLe a b = true) (h2 : strLe b c = true) :
    strLe a c = true :=
  listLe_trans a.data b.data c.data h1 h2

theorem strLe_antisymm {a b : String} (h1 : strLe a b = true) (h2 : strLe b a = true) :
    a = b :=
  congrArg String.mk (listLe_antisymm a.data b.data h1 h2)

theorem fold_keys_nodup_external (src : String) (anchors : List Anchor) :
    ∀ im em, (em.map Prod.fst).Nodup →
      (((anchors.foldl (processAnchor src) (im, em)).2).map Prod.fst).Nodup := by
  induction anchors with
  | nil => intro im em h; exact h
  | cons a anchors ih =>
    intro im em h
    rw [List.foldl_cons]
    by_cases hsk : anchorSkipped a = true
    · rw [processAnchor_skip src (im, em) a hsk]
      exact ih im em h
    · rw [processAnchor_go src (im, em) a (anchorSkipped_false hsk)]
      by_cases habs : absHostInternal (pyUrljoin src (pyStrip a.href)) = true
      · rw [if_pos habs]
        exact ih _ em h
      · rw [if_neg habs]
        exact ih im _ (keys_mapAdd_nodup em _ _ h)

theorem lookupM_eq_none_of_not_mem (m : LinkMap) (u : String)
    (h : u ∉ m.map Prod.fst) : lookupM m u = none := by
  cases hl : lookupM m u with
  | none => rfl
  | some l => exact absurd (lookupM_mem_keys m u l hl) h

theorem sortedBucket_props (ts l : List String)
    (h : (bucket none ts).map sortStrings = some l) :
    List.Sorted (fun a b => strLe a b = true) l ∧ l.Nodup ∧
    (∀ t, t ∈ l ↔ t ∈ ts) := by
  haveI : IsTotal String (fun a b => strLe a b = true) := ⟨strLe_total⟩
  haveI : IsTrans String (fun a b => strLe a b = true) := ⟨fun _ _ _ => strLe_trans⟩
  haveI : IsAntisymm String (fun a b => strLe a b = true) := ⟨fun _ _ => strLe_antisymm⟩
  cases ts with
  | nil => exact absurd h (by simp [bucket])
  | cons t0 ts0 =>
    have h1 : (bucket none (t0 :: ts0)).map sortStrings =
        some (sortStrings ((t0 :: ts0).foldl setAdd [])) := rfl
    rw [h1] at h
    have hl : l = sortStrings ((t0 :: ts0).foldl setAdd []) := (Option.some.inj h).symm
    have hnodup0 : ((t0 :: ts0).foldl setAdd []).Nodup :=
      foldl_setAdd_nodup _ _ List.nodup_nil
    have hperm0 : List.Perm (sortStrings ((t0 :: ts0).foldl setAdd []))
        ((t0 :: ts0).foldl setAdd []) :=
      List.perm_insertionSort _ _
    refine ⟨?_, ?_, ?_⟩
    · rw [hl]
      exact List.sorted_insertionSort _ _
    · rw [hl]
      exact hperm0.nodup_iff.mpr hnodup0
    · intro t
      rw [hl, hperm0.mem_iff, foldl_setAdd_mem]
      simp

theorem sortedBucket_perm (ts1 ts2 : List String) (hperm : ts1.Perm ts2) :
    (bucket none ts1).map sortStrings = (bucket none ts2).map sortStrings := by
  haveI : IsTotal String (fun a b => strLe a b = true) := ⟨strLe_total⟩
  haveI : IsTrans String (fun a b => strLe a b = true) := ⟨fun _ _ _ => strLe_trans⟩
  haveI : IsAntisymm String (fun a b => strLe a b = true) := ⟨fun _ _ => strLe_antisymm⟩
  cases ts1 with
  | nil =>
    have h2 : ts2 = [] := hperm.symm.eq_nil
    rw [h2]
  | cons t0 ts0 =>
    cases ts2 with
    | nil => exact absurd hperm.eq_nil (by simp)
    | cons s0 ss0 =>
      rw [show (bucket none (t0 :: ts0)).map sortStrings =
          some (sortStrings ((t0 :: ts0).foldl setAdd [])) from rfl,
        show (bucket none (s0 :: ss0)).map sortStrings =
          some (sortStrings ((s0 :: ss0).foldl setAdd [])) from rfl]
      congr 1
      have hnodup1 : ((t0 :: ts0).foldl setAdd []).Nodup :=
        foldl_setAdd_nodup _ _ List.nodup_nil
      have hnodup2 : ((s0 :: ss0).foldl setAdd []).Nodup :=
        foldl_setAdd_nodup _ _ List.nodup_nil
      have hperm1 : List.Perm (sortStrings ((t0 :: ts0).foldl setAdd []))
          ((t0 :: ts0).foldl setAdd []) := List.perm_insertionSort _ _
      have hperm2 : List.Perm (sortStrings ((s0 :: ss0).foldl setAdd []))
          ((s0 :: ss0).foldl setAdd []) := List.perm_insertionSort _ _
      have hmem : ∀ t, t ∈ sortStrings ((t0 :: ts0).foldl setAdd []) ↔
          t ∈ sortStrings ((s0 :: ss0).foldl setAdd []) := by
        intro t
        rw [hperm1.mem_iff, hperm2.mem_iff, foldl_setAdd_mem, foldl_setAdd_mem,
          hperm.mem_iff]
      have hp : List.Perm (sortStrings ((t0 :: ts0).foldl setAdd []))
          (sortStrings ((s0 :: ss0).foldl setAdd [])) :=
        (List.perm_ext_iff_of_nodup (hperm1.nodup_iff.mpr hnodup1)
          (hperm2.nodup_iff.mpr hnodup2)).mpr hmem
      exact List.eq_of_perm_of_sorted hp
        (by exact List.sorted_insertionSort _ _) (by exact List.sorted_insertionSort _ _)

/-- C9: for every URL recorded on a page — in the internal or the external
mapping — the stored value is the ascending sorted list of the distinct
anchor texts of all its occurrences: it is sorted, duplicate-free, and
contains exactly the extracted texts of the non-skipped anchors resolving
to that URL; both mappings have no duplicate keys; and both lookups are
invariant under permuting the anchors of the page; an empty anchor text is
handled like any other value (it can contribute only the empty string,
never a non-empty entry, and raises no error). -/
theorem claim_C9_sorted_distinct_texts (src : String) (anchors : List Anchor)
    (u : String) (l : List String)
    (h : lookupM (scrape_links_body src anchors).internal u = some l ∨
         lookupM (scrape_links_body src anchors).external u = some l) :
    List.Sorted (fun a b => strLe a b = true) l ∧ l.Nodup ∧
    (∀ t, t ∈ l ↔ t ∈ textsFor src anchors u) ∧
    ((scrape_links_body src anchors).internal.map Prod.fst).Nodup ∧
    ((scrape_links_body src anchors).external.map Prod.fst).Nodup ∧
    (∀ anchors2, anchors.Perm anchors2 →
      lookupM (scrape_links_body src anchors2).internal u =
        lookupM (scrape_links_body src anchors).internal u ∧
      lookupM (scrape_links_body src anchors2).external u =
        lookupM (scrape_links_body src anchors).external u) := by
  have hcharI : absHostInternal u = true → ∀ anchors3 : List Anchor,
      lookupM (scrape_links_body src anchors3).internal u =
        (bucket none (textsFor src anchors3 u)).map sortStrings := by
    intro hu anchors3
    unfold scrape_links_body
    dsimp only
    rw [lookup_sortvals, fold_lookup_internal src u hu anchors3 [] []]
    rfl
  have hcharE : absHostInternal u = false → ∀ anchors3 : List Anchor,
      lookupM (scrape_links_body src anchors3).external u =
        (bucket none (textsFor src anchors3 u)).map sortStrings := by
    intro hu anchors3
    unfold scrape_links_body
    dsimp only
    rw [lookup_sortvals, fold_lookup_external src u hu anchors3 [] []]
    rfl
  have hnoneI : absHostInternal u = false → ∀ anchors3 : List Anchor,
      lookupM (scrape_links_body src anchors3).internal u = none := by
    intro hu anchors3
    apply lookupM_eq_none_of_not_mem
    intro hk
    unfold scrape_links_body at hk
    dsimp only at hk
    rw [keys_sortvals] at hk
    rcases fold_keys_internal src anchors3 [] [] u hk with h2 | h2
    · exact absurd h2 (by simp)
    · rw [hu] at h2
      exact Bool.noConfusion h2
  have hnoneE : absHostInternal u = true → ∀ anchors3 : List Anchor,
      lookupM (scrape_links_body src anchors3).external u = none := by
    intro hu anchors3
    apply lookupM_eq_none_of_not_mem
    intro hk
    unfold scrape_links_body at hk
    dsimp only at hk
    rw [keys_sortvals] at hk
    rcases fold_keys_external src anchors3 [] [] u hk with h2 | h2
    · exact absurd h2 (by simp)
    · rw [hu] at h2
      exact Bool.noConfusion h2
  have hkeysI : ((scrape_links_body src anchors).internal.map Prod.fst).Nodup := by
    unfold scrape_links_body
    dsimp only
    rw [keys_sortvals]
    exact fold_keys_nodup_internal src anchors [] [] (by simp)
  have hkeysE : ((scrape_links_body src anchors).external.map Prod.fst).Nodup := by
    unfold scrape_links_body
    dsimp only
    rw [keys_sortvals]
    exact fold_keys_nodup_external src anchors [] [] (by simp)
  by_cases habs : absHostInternal u = true
  · have hI : lookupM (scrape_links_body src anchors).internal u = some l := by
      rcases h with hI | hE
      · exact hI
      · rw [hnoneE habs anchors] at hE
        exact Option.noConfusion hE
    have h0 : (bucket none (textsFor src anchors u)).map sortStrings = some l := by
      rw [← hcharI habs anchors]
      exact hI
    obtain ⟨hs, hn, hm⟩ := sortedBucket_props (textsFor src anchors u) l h0
    refine ⟨hs, hn, hm, hkeysI, hkeysE, ?_⟩
    intro anchors2 hperm
    have htperm : List.Perm (textsFor src anchors u) (textsFor src anchors2 u) := by
      unfold textsFor
      exact (hperm.filter _).map _
    constructor
    · rw [hcharI habs anchors2, hcharI habs anchors]
      exact (sortedBucket_perm _ _ htperm).symm
    · rw [hnoneE habs anchors2, hnoneE habs anchors]
  · have habs2 : absHostInternal u = false := by
      revert habs
      cases absHostInternal u <;> simp
    have hE : lookupM (scrape_links_body src anchors).external u = some l := by
      rcases h with hI | hE
      · rw [hnoneI habs2 anchors] at hI
        exact Option.noConfusion hI
      · exact hE
    have h0 : (bucket none (textsFor src anchors u)).map sortStrings = some l := by
      rw [← hcharE habs2 anchors]
      exact hE
    obtain ⟨hs, hn, hm⟩ := sortedBucket_props (textsFor src anchors u) l h0
    refine ⟨hs, hn, hm, hkeysI, hkeysE, ?_⟩
    intro anchors2 hperm
    have htperm : List.Perm (textsFor src anchors u) (textsFor src anchors2 u) := by
      unfold textsFor
      exact (hperm.filter _).map _
    constructor
    · rw [hnoneI habs2 anchors2, hnoneI habs2 anchors]
    · rw [hcharE habs2 anchors2, hcharE habs2 anchors]
      exact (sortedBucket_perm _ _ htperm).symm

/-- C9 witness: a concrete page with three occurrences of one internal
href (texts "beta", "alpha", "") and two occurrences of one external href
(texts "tw2", "tw1") yields the sorted duplicate-free values
["", "alpha", "beta"] in the internal mapping and ["tw1", "tw2"] in the
external mapping. -/
theorem claim_C9_witness :
    (lookupM (scrape_links_body "https://www.casinos.com/us/slots"
      [⟨"/about", "beta", none, none⟩, ⟨"/about", "alpha", none, none⟩,
       ⟨"/about", "", none, none⟩, ⟨"https://twitter.com/casinos", "tw2", none, none⟩,
       ⟨"https://twitter.com/casinos", "tw1", none, none⟩]).internal
      "https://www.casinos.com/about" = some ["", "alpha", "beta"] ∧
     List.Sorted (fun a b => strLe a b = true) ["", "alpha", "beta"]) ∧
    (lookupM (scrape_links_body "https://www.casinos.com/us/slots"
      [⟨"/about", "beta", none, none⟩, ⟨"/about", "alpha", none, none⟩,
       ⟨"/about", "", none, none⟩, ⟨"https://twitter.com/casinos", "tw2", none, none⟩,
       ⟨"https://twitter.com/casinos", "tw1", none, none⟩]).external
      "https://twitter.com/casinos" = some ["tw1", "tw2"] ∧
     List.Sorted (fun a b => strLe a b = true) ["tw1", "tw2"]) :=
  ⟨⟨by decide, (claim_C9_sorted_distinct_texts "https://www.casinos.com/us/slots"
      [⟨"/about", "beta", none, none⟩, ⟨"/about", "alpha", none, none⟩,
       ⟨"/about", "", none, none⟩, ⟨"https://twitter.com/casinos", "tw2", none, none⟩,
       ⟨"https://twitter.com/casinos", "tw1", none, none⟩]
      "https://www.casinos.com/about" ["", "alpha", "beta"] (Or.inl (by decide))).1⟩,
   ⟨by decide, (claim_C9_sorted_distinct_texts "https://www.casinos.com/us/slots"
      [⟨"/about", "beta", none, none⟩, ⟨"/about", "alpha", none, none⟩,
       ⟨"/about", "", none, none⟩, ⟨"https://twitter.com/casinos", "tw2", none, none⟩,
       ⟨"https://twitter.com/casinos", "tw1", none, none⟩]
      "https://twitter.com/casinos" ["tw1", "tw2"] (Or.inr (by decide))).1⟩⟩

theorem prefixAt_single_slash {l : List Char} (h : prefixAt ['/'] l = true) :
    ∃ t, l = '/' :: t := by
  cases l with
  | nil => cases h
  | cons c cs =>
    refine ⟨cs, ?_⟩
    have h2 : ('/' = c) := by
      rw [prefixAt] at h
      rcases Bool.and_eq_true .. ▸ h with ⟨h1, _⟩
      exact of_decide_eq_true h1
    rw [← h2]

theorem pyUrlunsplit_https_www (url q f : String) :
    ∃ rest : String,
      pyUrlunsplit "https" "www.casinos.com" url q f = "https://www.casinos.com" ++ rest ∧
      (rest.data = [] ∨ ∃ c cs, rest.data = c :: cs ∧ (c = '/' ∨ c = '?' ∨ c = '#')) := by
  unfold pyUrlunsplit
  have hcond : (decide (("www.casinos.com" : String) ≠ "") ||
      (decide (url ≠ "") && prefixAt ['/', '/'] url.data)) = true := by
    rw [show decide (("www.casinos.com" : String) ≠ "") = true from by decide]
    rfl
  rw [if_pos hcond]
  by_cases hu : (decide (url ≠ "") && decide (¬ pyStartsWith url "/" = true)) = true
  · rw [if_pos hu]
    by_cases hf : f = ""
    · subst hf
      rw [if_neg (by simp)]
      by_cases hq : q = ""
      · subst hq
        rw [if_neg (by simp)]
        exact ⟨"/" ++ url, rfl, Or.inr ⟨'/', url.data, rfl, Or.inl rfl⟩⟩
      · rw [if_pos hq]
        exact ⟨("/" ++ url ++ "?") ++ q, rfl, Or.inr ⟨'/', _, rfl, Or.inl rfl⟩⟩
    · rw [if_pos hf]
      by_cases hq : q = ""
      · subst hq
        rw [if_neg (by simp)]
        exact ⟨("/" ++ url ++ "#") ++ f, rfl, Or.inr ⟨'/', _, rfl, Or.inl rfl⟩⟩
      · rw [if_pos hq]
        exact ⟨((("/" ++ url ++ "?") ++ q) ++ "#") ++ f, rfl,
          Or.inr ⟨'/', _, rfl, Or.inl rfl⟩⟩
  · rw [if_neg hu]
    have hcase : url = "" ∨ ∃ t, url.data = '/' :: t := by
      by_cases h1 : url = ""
      · exact Or.inl h1
      · right
        have h2 : pyStartsWith url "/" = true := by
          by_contra h3
          exact hu (by simp [h1, h3])
        exact prefixAt_single_slash h2
    by_cases hf : f = ""
    · subst hf
      rw [if_neg (by simp)]
      by_cases hq : q = ""
      · subst hq
        rw [if_neg (by simp)]
        refine ⟨url, rfl, ?_⟩
        rcases hcase with rfl | ⟨t, ht⟩
        · exact Or.inl rfl
        · exact Or.inr ⟨'/', t, ht, Or.inl rfl⟩
      · rw [if_pos hq]
        refine ⟨(url ++ "?") ++ q, rfl, ?_⟩
        rcases hcase with rfl | ⟨t, ht⟩
        · exact Or.inr ⟨'?', q.data, rfl, Or.inr (Or.inl rfl)⟩
        · refine Or.inr ⟨'/', (t ++ ['?']) ++ q.data, ?_, Or.inl rfl⟩
          show (url.data ++ "?".data) ++ q.data = ('/' :: (t ++ ['?'])) ++ q.data
          rw [ht]
          rfl
    · rw [if_pos hf]
      by_cases hq : q = ""
      · subst hq
        rw [if_neg (by simp)]
        refine ⟨(url ++ "#") ++ f, rfl, ?_⟩
        rcases hcase with rfl | ⟨t, ht⟩
        · exact Or.inr ⟨'#', f.data, rfl, Or.inr (Or.inr rfl)⟩
        · refine Or.inr ⟨'/', (t ++ ['#']) ++ f.data, ?_, Or.inl rfl⟩
          show (url.data ++ "#".data) ++ f.data = ('/' :: (t ++ ['#'])) ++ f.data
          rw [ht]
          rfl
      · rw [if_pos hq]
        refine ⟨(((url ++ "?") ++ q) ++ "#") ++ f, rfl, ?_⟩
        rcases hcase with rfl | ⟨t, ht⟩
        · exact Or.inr ⟨'?', _, rfl, Or.inr (Or.inl rfl)⟩
        · refine Or.inr ⟨'/', (((t ++ ['?']) ++ q.data) ++ ['#']) ++ f.data, ?_, Or.inl rfl⟩
          show (((url.data ++ "?".data) ++ q.data) ++ "#".data) ++ f.data =
            ('/' :: (((t ++ ['?']) ++ q.data) ++ ['#'])) ++ f.data
          rw [ht]
          rfl

theorem filter_clean_id {l : List Char}
    (h : ∀ c ∈ l, c ≠ '\t' ∧ c ≠ '\r' ∧ c ≠ '\n') :
    l.filter (fun c => ¬(c = '\t' || c = '\r' || c = '\n')) = l := by
  rw [List.filter_eq_self]
  intro c hc
  obtain ⟨h1, h2, h3⟩ := h c hc
  simp [h1, h2, h3]

theorem pyUrlparse_simple (t : String) (ds : String)
    (hcolon : ':' ∉ t.data)
    (hclean : ∀ c ∈ t.data, c ≠ '\t' ∧ c ≠ '\r' ∧ c ≠ '\n')
    (hhead : t.data = [] ∨ ∃ c cs, t.data = c :: cs ∧ c ≠ '/') :
    (pyUrlparse t ds).scheme = ds ∧ (pyUrlparse t ds).netloc = "" := by
  unfold pyUrlparse
  rw [filter_clean_id hclean]
  have hss : splitScheme t.data = none := by
    unfold splitScheme
    rw [splitAtFirst_eq_none hcolon]
  have hpre : prefixAt ['/', '/'] t.data = false := by
    rcases hhead with h | ⟨c, cs, hce, hcn⟩
    · rw [h]; rfl
    · rw [hce, prefixAt]
      have h4 : decide ('/' = c) = false := by
        simp only [decide_eq_false_iff_not]
        exact fun he => hcn he.symm
      rw [h4, Bool.false_and]
  dsimp only
  rw [hss]
  dsimp only
  rw [if_neg (show ¬(prefixAt ['/', '/'] t.data = true) from by simp [hpre])]
  constructor
  · rfl
  · rfl

theorem pyUrljoin_base_prefix (t : String)
    (hcolon : ':' ∉ t.data)
    (hclean : ∀ c ∈ t.data, c ≠ '\t' ∧ c ≠ '\r' ∧ c ≠ '\n')
    (hhead : t.data = [] ∨ ∃ c cs, t.data = c :: cs ∧ c ≠ '/') :
    ∃ rest : String,
      pyUrljoin BASE t = "https://www.casinos.com" ++ rest ∧
      (rest.data = [] ∨ ∃ c cs, rest.data = c :: cs ∧ (c = '/' ∨ c = '?' ∨ c = '#')) := by
  by_cases ht : t = ""
  · subst ht
    refine ⟨"/", ?_, Or.inr ⟨'/', [], rfl, Or.inl rfl⟩⟩
    rfl
  · obtain ⟨hsch, hnl⟩ := pyUrlparse_simple t "https" hcolon hclean hhead
    unfold pyUrljoin
    rw [if_neg (show ¬(BASE = "") from by decide), if_neg ht]
    rw [show pyUrlparse BASE "" = ⟨"https", "www.casinos.com", "/", "", "", ""⟩ from rfl]
    dsimp only
    rw [hsch, hnl]
    by_cases hpp : (decide ((pyUrlparse t "https").path = "") &&
        decide ((pyUrlparse t "https").params = "")) = true
    · rw [if_pos hpp]
      exact pyUrlunsplit_https_www _ _ _
    · rw [if_neg hpp]
      exact pyUrlunsplit_https_www _ _ _

theorem pyUrlparse_www_fields (s1 : String)
    (hclean : ∀ c ∈ s1.data, c ≠ '\t' ∧ c ≠ '\r' ∧ c ≠ '\n') :
    (pyUrlparse ("https://" ++ s1) "").netloc =
      ⟨s1.data.takeWhile (fun c => c ≠ '/' && c ≠ '?' && c ≠ '#')⟩ ∧
    ((pyUrlparse ("https://" ++ s1) "").path.data = [] ∨
      ∃ cs, (pyUrlparse ("https://" ++ s1) "").path.data = '/' :: cs) := by
  unfold pyUrlparse
  have hfil : ("https://" ++ s1).data.filter
      (fun c => ¬(c = '\t' || c = '\r' || c = '\n')) = "https://".data ++ s1.data := by
    rw [strData_append, List.filter_append, filter_clean_id hclean]
    have h8 : ("https://" : String).data.filter
        (fun c => ¬(c = '\t' || c = '\r' || c = '\n')) = ("https://" : String).data := rfl
    rw [h8]
  dsimp only
  rw [hfil]
  dsimp only
  rw [show splitScheme (("https://" : String).data ++ s1.data) =
    some ("https".data, '/' :: '/' :: s1.data) from rfl]
  dsimp only
  rw [if_pos (show prefixAt ['/', '/'] ('/' :: '/' :: s1.data) = true from rfl)]
  dsimp only
  rw [show List.drop 2 ('/' :: '/' :: s1.data) = s1.data from rfl]
  rw [drop_takeWhile_length]
  refine ⟨rfl, ?_⟩
  cases hd : s1.data.dropWhile (fun c => c ≠ '/' && c ≠ '?' && c ≠ '#') with
  | nil => exact Or.inl rfl
  | cons c cs =>
    have hc := dropWhile_head_not hd
    have hc3 : c = '/' ∨ c = '?' ∨ c = '#' := by
      by_contra hno
      push_neg at hno
      obtain ⟨h1, h2, h3⟩ := hno
      simp [h1, h2, h3] at hc
    rcases hc3 with rfl | rfl | rfl
    · -- '/' head
      rcases splitAtFirst_fst_head '#' '/' cs (by decide) with h4 | ⟨a, b, h4⟩ <;>
        rw [h4] <;> dsimp only
      · rcases splitAtFirst_fst_head '?' '/' cs (by decide) with h5 | ⟨a2, b2, h5⟩ <;>
          rw [h5] <;> dsimp only
        · rcases splitParams_fst_head '/' cs with h6 | ⟨ds, h6⟩
          · rw [h6]; exact Or.inl rfl
          · rw [h6]; exact Or.inr ⟨ds, rfl⟩
        · rcases splitParams_fst_head '/' a2 with h6 | ⟨ds, h6⟩
          · rw [h6]; exact Or.inl rfl
          · rw [h6]; exact Or.inr ⟨ds, rfl⟩
      · rcases splitAtFirst_fst_head '?' '/' a (by decide) with h5 | ⟨a2, b2, h5⟩ <;>
          rw [h5] <;> dsimp only
        · rcases splitParams_fst_head '/' a with h6 | ⟨ds, h6⟩
          · rw [h6]; exact Or.inl rfl
          · rw [h6]; exact Or.inr ⟨ds, rfl⟩
        · rcases splitParams_fst_head '/' a2 with h6 | ⟨ds, h6⟩
          · rw [h6]; exact Or.inl rfl
          · rw [h6]; exact Or.inr ⟨ds, rfl⟩
    · -- '?' head
      rcases splitAtFirst_fst_head '#' '?' cs (by decide) with h4 | ⟨a, b, h4⟩ <;>
        rw [h4] <;> dsimp only
      · exact Or.inl rfl
      · exact Or.inl rfl
    · -- '#' head
      exact Or.inl rfl

theorem pyStartsWith_www_head {s1 : String} (h : pyStartsWith s1 "www." = true) :
    ∃ t2, s1.data = 'w' :: t2 := by
  unfold pyStartsWith at h
  cases hd : s1.data with
  | nil => rw [hd] at h; cases h
  | cons c cs =>
    rw [hd, prefixAt] at h
    rcases Bool.and_eq_true .. ▸ h with ⟨h1, _⟩
    have := of_decide_eq_true h1
    exact ⟨cs, by rw [← this]⟩

theorem normalize_www_branch (s1 : String)
    (hclean : ∀ c ∈ s1.data, c ≠ '\t' ∧ c ≠ '\r' ∧ c ≠ '\n')
    (hwww : pyStartsWith s1 "www." = true)
    (hhost : INTERNAL_HOSTS.contains
      (pyLower (pyUrlparse ("https://" ++ s1) "").netloc) = true) :
    ∃ rest : String,
      ("https://" ++ pyLower (pyUrlparse ("https://" ++ s1) "").netloc ++
        (if (pyUrlparse ("https://" ++ s1) "").path ≠ ""
          then (pyUrlparse ("https://" ++ s1) "").path else "/") ++
        (if (pyUrlparse ("https://" ++ s1) "").query ≠ ""
          then "?" ++ (pyUrlparse ("https://" ++ s1) "").query else "")) =
      "https://www.casinos.com" ++ rest ∧
      (rest.data = [] ∨ ∃ c cs, rest.data = c :: cs ∧ (c = '/' ∨ c = '?' ∨ c = '#')) := by
  obtain ⟨hnl, hpath⟩ := pyUrlparse_www_fields s1 hclean
  have hnlw : ∃ t3, (pyUrlparse ("https://" ++ s1) "").netloc.data = 'w' :: t3 := by
    rw [hnl]
    obtain ⟨t2, ht2⟩ := pyStartsWith_www_head hwww
    rw [ht2]
    exact ⟨t2.takeWhile (fun c => c ≠ '/' && c ≠ '?' && c ≠ '#'), rfl⟩
  have hostw : pyLower (pyUrlparse ("https://" ++ s1) "").netloc = "www.casinos.com" := by
    have hmem : pyLower (pyUrlparse ("https://" ++ s1) "").netloc = "www.casinos.com" ∨
        pyLower (pyUrlparse ("https://" ++ s1) "").netloc = "casinos.com" := by
      simpa [INTERNAL_HOSTS] using hhost
    rcases hmem with h | h
    · exact h
    · exfalso
      obtain ⟨t3, ht3⟩ := hnlw
      have hl : (pyLower (pyUrlparse ("https://" ++ s1) "").netloc).data =
          'w' :: t3.map Char.toLower := by
        unfold pyLower
        rw [ht3]
        rfl
      rw [h] at hl
      cases hl
  rw [hostw]
  rcases hpath with hp0 | ⟨cs, hp⟩
  · rw [show (pyUrlparse ("https://" ++ s1) "").path = "" from str_ext hp0]
    rw [if_neg (by simp)]
    refine ⟨"/" ++ (if (pyUrlparse ("https://" ++ s1) "").query ≠ ""
      then "?" ++ (pyUrlparse ("https://" ++ s1) "").query else ""), rfl,
      Or.inr ⟨'/', _, rfl, Or.inl rfl⟩⟩
  · have hpne : (pyUrlparse ("https://" ++ s1) "").path ≠ "" := by
      intro he
      rw [he] at hp
      cases hp
    rw [if_pos hpne]
    rw [show (pyUrlparse ("https://" ++ s1) "").path = ⟨'/' :: cs⟩ from str_ext hp]
    refine ⟨(⟨'/' :: cs⟩ : String) ++ (if (pyUrlparse ("https://" ++ s1) "").query ≠ ""
      then "?" ++ (pyUrlparse ("https://" ++ s1) "").query else ""), rfl,
      Or.inr ⟨'/', _, rfl, Or.inl rfl⟩⟩

/-- C5 (amended): for every colon-free input (no `:` and no unsafe bytes),
every successful normalization returns a string of the form
`https://www.casinos.com` followed by nothing or by a `/`, `?` or `#`
boundary character; and `normalize_to_casinos "https://evil.com/x"` is
rejected with the non-casinos error.  The unrestricted claim fails on
slash-prefixed inputs that smuggle an absolute URL through `urljoin`. -/
theorem claim_C5_amended (s : String)
    (hs : ∀ c ∈ s.data, c ≠ ':' ∧ c ≠ '\t' ∧ c ≠ '\r' ∧ c ≠ '\n') :
    (∀ r, normalize_to_casinos s = Except.ok r →
      ∃ rest : String, r = "https://www.casinos.com" ++ rest ∧
        (rest.data = [] ∨ ∃ c cs, rest.data = c :: cs ∧ (c = '/' ∨ c = '?' ∨ c = '#'))) ∧
    normalize_to_casinos "https://evil.com/x" =
      Except.error "Non-casinos.com URL not allowed: https://evil.com/x" := by
  have hs1 : ∀ c ∈ (pyStrip s).data, c ≠ ':' ∧ c ≠ '\t' ∧ c ≠ '\r' ∧ c ≠ '\n' :=
    fun c hc => hs c (mem_pyStrip hc)
  have hcolon1 : ':' ∉ (pyStrip s).data := fun hm => ((hs1 _ hm).1 rfl)
  have hjoin : ∀ r, Except.ok (pyUrljoin BASE (pyLstripSlash (pyStrip s))) =
      (Except.ok r : Except String String) →
      ∃ rest : String, r = "https://www.casinos.com" ++ rest ∧
        (rest.data = [] ∨ ∃ c cs, rest.data = c :: cs ∧ (c = '/' ∨ c = '?' ∨ c = '#')) := by
    intro r hr
    obtain ⟨rest, he, hh⟩ := pyUrljoin_base_prefix (pyLstripSlash (pyStrip s))
      (fun hm => hcolon1 (mem_pyLstripSlash hm))
      (fun c hc => (hs1 c (mem_pyLstripSlash hc)).2)
      (pyLstripSlash_shape (pyStrip s))
    exact ⟨rest, by rw [← Except.ok.inj hr, he], hh⟩
  constructor
  · intro r hr
    unfold normalize_to_casinos at hr
    dsimp only at hr
    split at hr
    · exact hjoin r hr
    · rw [containsSub_sep_false hcolon1] at hr
      by_cases hw : pyStartsWith (pyStrip s) "www." = true
      · rw [hw] at hr
        rw [show (decide (¬(false : Bool) = true) && true) = true from by decide] at hr
        rw [if_pos rfl] at hr
        rw [if_neg (show ¬(¬ containsSub ("https://" ++ pyStrip s) "://" = true) from by
          simp [show containsSub ("https://" ++ pyStrip s) "://" = true from rfl])] at hr
        split at hr
        · next hhost =>
          obtain ⟨rest, he, hh⟩ := normalize_www_branch (pyStrip s)
            (fun c hc => (hs1 c hc).2) hw hhost
          exact ⟨rest, by rw [← Except.ok.inj hr, he], hh⟩
        · cases hr
      · have hw2 : pyStartsWith (pyStrip s) "www." = false := by
          revert hw
          cases pyStartsWith (pyStrip s) "www." <;> simp
        rw [hw2, Bool.and_false] at hr
        simp only [Bool.false_eq_true, if_false] at hr
        rw [if_pos (show ¬ containsSub (pyStrip s) "://" = true from by
          simp [containsSub_sep_false hcolon1])] at hr
        exact hjoin r hr
  · decide

theorem pySplitOnChar_ne_nil (sep : Char) (l : List Char) : pySplitOnChar sep l ≠ [] := by
  cases l with
  | nil => simp [pySplitOnChar]
  | cons c cs =>
    simp only [pySplitOnChar]
    by_cases hc : c = sep
    · rw [if_pos hc]
      simp
    · rw [if_neg hc]
      cases pySplitOnChar sep cs <;> simp

theorem intercalate_cons_ne (s x : List Char) (ys : List (List Char)) (h : ys ≠ []) :
    List.intercalate s (x :: ys) = x ++ s ++ List.intercalate s ys := by
  obtain ⟨y, t, rfl⟩ : ∃ y t, ys = y :: t := by
    cases ys with
    | nil => exact absurd rfl h
    | cons y t => exact ⟨y, t, rfl⟩
  simp [List.intercalate, List.intersperse, List.append_assoc]

theorem intercalate_single (s x : List Char) : List.intercalate s [x] = x := by
  simp [List.intercalate]

theorem intercalate_pySplit (sep : Char) (l : List Char) :
    List.intercalate [sep] (pySplitOnChar sep l) = l := by
  induction l with
  | nil => simp [pySplitOnChar, intercalate_single]
  | cons c cs ih =>
    simp only [pySplitOnChar]
    by_cases hc : c = sep
    · rw [if_pos hc, intercalate_cons_ne [sep] [] _ (pySplitOnChar_ne_nil sep cs), ih, hc]
      rfl
    · rw [if_neg hc]
      cases hr : pySplitOnChar sep cs with
      | nil => exact absurd hr (pySplitOnChar_ne_nil sep cs)
      | cons h0 t =>
        rw [hr] at ih
        cases t with
        | nil =>
          rw [intercalate_single] at ih
          rw [intercalate_single, ih]
        | cons t0 ts =>
          rw [intercalate_cons_ne [sep] _ _ (by simp)] at ih
          rw [intercalate_cons_ne [sep] _ _ (by simp), ← ih]
          simp

theorem filterMiddle_base (segs : List (List Char)) (hne : segs ≠ [])
    (hall : ∀ seg ∈ segs, seg ≠ ([] : List Char)) :
    filterMiddle ([[], []] ++ segs) = [] :: segs := by
  obtain ⟨s0, srest, rfl⟩ : ∃ s0 srest, segs = s0 :: srest := by
    cases segs with
    | nil => exact absurd rfl hne
    | cons s0 srest => exact ⟨s0, srest, rfl⟩
  show filterMiddle ([] :: [] :: s0 :: srest) = [] :: s0 :: srest
  unfold filterMiddle
  dsimp only
  rw [List.getLast?_cons_cons, List.getLast?_eq_getLast (s0 :: srest) (by simp)]
  dsimp only
  rw [List.dropLast_cons₂]
  rw [List.filter_cons_of_neg (by simp)]
  have hfil : ((s0 :: srest).dropLast).filter (fun x => x ≠ ([] : List Char)) =
      (s0 :: srest).dropLast := by
    rw [List.filter_eq_self]
    intro a ha
    have ham : a ∈ s0 :: srest := List.Sublist.mem ha (List.dropLast_sublist _)
    simp [hall a ham]
  rw [hfil, List.cons_append]
  congr 1
  exact List.dropLast_append_getLast (show s0 :: srest ≠ [] by simp)

theorem resolveDots_no_dots (segs : List (List Char))
    (h : ∀ seg ∈ segs, seg ≠ ['.'] ∧ seg ≠ ['.', '.']) :
    ∀ acc, resolveDots segs acc = acc ++ segs := by
  induction segs with
  | nil => intro acc; simp [resolveDots]
  | cons seg rest ih =>
    intro acc
    rw [resolveDots]
    rw [if_neg (h seg (List.mem_cons_self seg rest)).2,
      if_neg (h seg (List.mem_cons_self seg rest)).1]
    rw [ih (fun s hs => h s (List.mem_cons_of_mem seg hs)) (acc ++ [seg])]
    simp

theorem mem_revTakeWhileRev {c : Char} {p : Char → Bool} {l : List Char}
    (h : c ∈ (l.reverse.takeWhile p).reverse) : c ∈ l := by
  rw [List.mem_reverse] at h
  exact List.mem_reverse.mp (List.Sublist.mem h (List.takeWhile_sublist _))

theorem splitParams_no_semi {l : List Char} (h : ';' ∉ l) :
    splitParams l = (l, []) := by
  unfold splitParams
  by_cases hc : l.contains '/' = true
  · rw [if_pos hc]
    dsimp only
    rw [splitAtFirst_eq_none (show ';' ∉ (l.reverse.takeWhile (· ≠ '/')).reverse from
      fun hm => h (mem_revTakeWhileRev hm))]
  · rw [if_neg hc]
    rw [splitAtFirst_eq_none h]

theorem pyUrlparse_clean (t ds : String)
    (hcolon : ':' ∉ t.data) (hhash : '#' ∉ t.data) (hqm : '?' ∉ t.data)
    (hsemi : ';' ∉ t.data)
    (hclean : ∀ c ∈ t.data, c ≠ '\t' ∧ c ≠ '\r' ∧ c ≠ '\n')
    (hhead : t.data = [] ∨ ∃ c cs, t.data = c :: cs ∧ c ≠ '/') :
    pyUrlparse t ds = ⟨ds, "", t, "", "", ""⟩ := by
  unfold pyUrlparse
  rw [filter_clean_id hclean]
  have hss : splitScheme t.data = none := by
    unfold splitScheme
    rw [splitAtFirst_eq_none hcolon]
  have hpre : prefixAt ['/', '/'] t.data = false := by
    rcases hhead with h | ⟨c, cs, hce, hcn⟩
    · rw [h]; rfl
    · rw [hce, prefixAt]
      have h4 : decide ('/' = c) = false := by
        simp only [decide_eq_false_iff_not]
        exact fun he => hcn he.symm
      rw [h4, Bool.false_and]
  dsimp only
  rw [hss]
  dsimp only
  rw [if_neg (show ¬(prefixAt ['/', '/'] t.data = true) from by simp [hpre])]
  dsimp only
  rw [splitAtFirst_eq_none hhash]
  dsimp only
  rw [splitAtFirst_eq_none hqm]
  dsimp only
  rw [splitParams_no_semi hsemi]

theorem pyUrljoin_clean_token (t : String) (ht : t ≠ "")
    (hcolon : ':' ∉ t.data) (hhash : '#' ∉ t.data) (hqm : '?' ∉ t.data)
    (hsemi : ';' ∉ t.data)
    (hclean : ∀ c ∈ t.data, c ≠ '\t' ∧ c ≠ '\r' ∧ c ≠ '\n')
    (hhead : ∃ c cs, t.data = c :: cs ∧ c ≠ '/')
    (hsegs : ∀ seg ∈ pySplitOnChar '/' t.data,
      seg ≠ ([] : List Char) ∧ seg ≠ ['.'] ∧ seg ≠ ['.', '.']) :
    pyUrljoin BASE t = "https://www.casinos.com/" ++ t := by
  have hu := pyUrlparse_clean t "https" hcolon hhash hqm hsemi hclean (Or.inr hhead)
  have hsw : pyStartsWith t "/" = false := by
    obtain ⟨c, cs, hce, hcn⟩ := hhead
    unfold pyStartsWith
    rw [hce, prefixAt]
    have h4 : decide ('/' = c) = false := by
      simp only [decide_eq_false_iff_not]
      exact fun he => hcn he.symm
    rw [h4, Bool.false_and]
  unfold pyUrljoin
  rw [if_neg (show ¬(BASE = "") from by decide), if_neg ht]
  rw [show pyUrlparse BASE "" = ⟨"https", "www.casinos.com", "/", "", "", ""⟩ from rfl]
  dsimp only
  rw [hu]
  dsimp only
  rw [show (decide (("https" : String) ≠ "https") ||
      decide (¬ usesRelative.contains "https" = true)) = false from by decide]
  simp only [Bool.false_eq_true, if_false]
  rw [show (usesNetloc.contains "https" && decide (("" : String) ≠ "")) = false from by decide]
  simp only [Bool.false_eq_true, if_false]
  have hc3 : (decide (t = "") && decide True) = false := by
    rw [decide_eq_false ht]
    rfl
  rw [hc3]
  simp only [Bool.false_eq_true, if_false]
  rw [show pySplitOnChar '/' ['/'] = [([] : List Char), []] from rfl]
  rw [if_neg (show ¬(([([] : List Char), []]).getLast? ≠ some ([] : List Char)) from by decide)]
  rw [hsw]
  simp only [Bool.false_eq_true, if_false]
  rw [filterMiddle_base (pySplitOnChar '/' t.data) (pySplitOnChar_ne_nil '/' t.data)
    (fun seg hs => (hsegs seg hs).1)]
  have hset : ∀ seg ∈ ([] : List Char) :: pySplitOnChar '/' t.data,
      seg ≠ ['.'] ∧ seg ≠ ['.', '.'] := by
    intro seg hs
    rcases List.mem_cons.mp hs with rfl | hs
    · exact ⟨by simp, by simp⟩
    · exact ⟨(hsegs seg hs).2.1, (hsegs seg hs).2.2⟩
  rw [resolveDots_no_dots (([] : List Char) :: pySplitOnChar '/' t.data) hset []]
  rw [List.nil_append]
  have hlast : ∃ g, (([] : List Char) :: pySplitOnChar '/' t.data).getLast? = some g ∧
      g ≠ ['.'] ∧ g ≠ ['.', '.'] := by
    cases hsp2 : pySplitOnChar '/' t.data with
    | nil => exact absurd hsp2 (pySplitOnChar_ne_nil '/' t.data)
    | cons s0 srest =>
      have hm := List.getLast_mem (show s0 :: srest ≠ [] by simp)
      have hm2 : (s0 :: srest).getLast (by simp) ∈ pySplitOnChar '/' t.data := by
        rw [hsp2]
        exact hm
      have hseg := hsegs _ hm2
      refine ⟨(s0 :: srest).getLast (by simp), ?_, hseg.2.1, hseg.2.2⟩
      rw [List.getLast?_cons_cons, List.getLast?_eq_getLast (s0 :: srest) (by simp)]
  have hcond : (decide ((([] : List Char) :: pySplitOnChar '/' t.data).getLast? = some ['.']) ||
      decide ((([] : List Char) :: pySplitOnChar '/' t.data).getLast? = some ['.', '.'])) =
      false := by
    obtain ⟨g, hg, h1, h2⟩ := hlast
    rw [hg, decide_eq_false (fun he => h1 (Option.some.inj he)),
      decide_eq_false (fun he => h2 (Option.some.inj he))]
    rfl
  rw [hcond]
  simp only [Bool.false_eq_true, if_false]
  rw [intercalate_cons_ne ['/'] [] (pySplitOnChar '/' t.data) (pySplitOnChar_ne_nil '/' t.data)]
  rw [intercalate_pySplit '/' t.data]
  simp only [List.nil_append, List.singleton_append]
  rw [if_neg (List.cons_ne_nil '/' t.data)]
  rfl

theorem nonspace_clean {c : Char} (h : pyIsSpace c = false) :
    c ≠ '\t' ∧ c ≠ '\r' ∧ c ≠ '\n' := by
  simp only [pyIsSpace, Bool.or_eq_false_iff, decide_eq_false_iff_not] at h
  exact ⟨h.1.1.1.1.2, h.1.1.2, h.1.1.1.2⟩

theorem normalize_clean_token (t : String) (ht : t ≠ "")
    (hsp : ∀ c ∈ t.data, pyIsSpace c = false)
    (hcolon : ':' ∉ t.data) (hhash : '#' ∉ t.data) (hqm : '?' ∉ t.data)
    (hsemi : ';' ∉ t.data)
    (hsw : pyStartsWith t "/" = false)
    (hwww : pyStartsWith t "www." = false)
    (hsegs : ∀ seg ∈ pySplitOnChar '/' t.data,
      seg ≠ ([] : List Char) ∧ seg ≠ ['.'] ∧ seg ≠ ['.', '.']) :
    normalize_to_casinos t = Except.ok ("https://www.casinos.com/" ++ t) ∧
    normalize_to_casinos ("/" ++ t) = Except.ok ("https://www.casinos.com/" ++ t) := by
  have hclean : ∀ c ∈ t.data, c ≠ '\t' ∧ c ≠ '\r' ∧ c ≠ '\n' :=
    fun c hc => nonspace_clean (hsp c hc)
  have hhead : ∃ c cs, t.data = c :: cs ∧ c ≠ '/' := by
    cases hd : t.data with
    | nil => exact absurd (str_ext (show t.data = ("" : String).data from hd)) ht
    | cons c cs =>
      refine ⟨c, cs, rfl, ?_⟩
      intro he
      subst he
      unfold pyStartsWith at hsw
      rw [hd] at hsw
      have h1 : prefixAt ['/'] ('/' :: cs) = true := rfl
      rw [h1] at hsw
      exact Bool.noConfusion hsw
  have hjoin := pyUrljoin_clean_token t ht hcolon hhash hqm hsemi hclean hhead hsegs
  have hstrip : pyStrip t = t := by
    unfold pyStrip
    rw [pyStripList_id hsp]
  have hlst : pyLstripSlash t = t := by
    obtain ⟨c, cs, hd, hc⟩ := hhead
    unfold pyLstripSlash
    rw [hd, List.dropWhile_cons, if_neg (by simp [hc]), ← hd]
  constructor
  · unfold normalize_to_casinos
    dsimp only
    rw [hstrip, hsw]
    simp only [Bool.false_eq_true, if_false]
    rw [hwww, Bool.and_false]
    simp only [Bool.false_eq_true, if_false]
    rw [if_pos (show ¬ containsSub t "://" = true from by
      simp [containsSub_sep_false hcolon])]
    rw [hlst, hjoin]
  · have hsp2 : ∀ c ∈ ("/" ++ t).data, pyIsSpace c = false := by
      intro c hc
      rw [strData_append] at hc
      rcases List.mem_append.mp hc with hc | hc
      · rcases List.mem_singleton.mp (show c ∈ ['/'] from hc) with rfl
        decide
      · exact hsp c hc
    have hstrip2 : pyStrip ("/" ++ t) = "/" ++ t := by
      unfold pyStrip
      rw [pyStripList_id hsp2]
    have hlst2 : pyLstripSlash ("/" ++ t) = t := by
      obtain ⟨c, cs, hd, hc⟩ := hhead
      unfold pyLstripSlash
      rw [show ("/" ++ t).data = '/' :: t.data from rfl, List.dropWhile_cons,
        if_pos (by simp), hd, List.dropWhile_cons, if_neg (by simp [hc]), ← hd]
    unfold normalize_to_casinos
    dsimp only
    rw [hstrip2]
    rw [if_pos (show pyStartsWith ("/" ++ t) "/" = true from rfl)]
    rw [hlst2, hjoin]

theorem pyUrlparse_full (rr q : String)
    (hrr : ∀ c ∈ rr.data, c ≠ '\t' ∧ c ≠ '\r' ∧ c ≠ '\n')
    (hrr2 : '#' ∉ rr.data) (hrr3 : '?' ∉ rr.data) (hrr4 : ';' ∉ rr.data)
    (hq : ∀ c ∈ q.data, c ≠ '\t' ∧ c ≠ '\r' ∧ c ≠ '\n')
    (hq2 : '#' ∉ q.data) :
    pyUrlparse ("https://www.casinos.com/" ++ rr ++ "?" ++ q) "" =
      ⟨"https", "www.casinos.com", ⟨'/' :: rr.data⟩, "", q, ""⟩ := by
  unfold pyUrlparse
  have hdata : (("https://www.casinos.com/" ++ rr ++ "?" ++ q) : String).data =
      ("https://www.casinos.com/" : String).data ++ (rr.data ++ '?' :: q.data) := by
    simp only [strData_append, List.append_assoc]
    rfl
  rw [hdata]
  have hfil : (("https://www.casinos.com/" : String).data ++ (rr.data ++ '?' :: q.data)).filter
      (fun c => ¬(c = '\t' || c = '\r' || c = '\n')) =
      ("https://www.casinos.com/" : String).data ++ (rr.data ++ '?' :: q.data) := by
    apply filter_clean_id
    intro c hc
    rcases List.mem_append.mp hc with hc | hc
    · exact (show ∀ c ∈ ("https://www.casinos.com/" : String).data,
        c ≠ '\t' ∧ c ≠ '\r' ∧ c ≠ '\n' from by decide) c hc
    · rcases List.mem_append.mp hc with hc | hc
      · exact hrr c hc
      · rcases List.mem_cons.mp hc with rfl | hc
        · exact ⟨by decide, by decide, by decide⟩
        · exact hq c hc
  rw [hfil]
  dsimp only
  rw [show splitScheme (("https://www.casinos.com/" : String).data ++
      (rr.data ++ '?' :: q.data)) =
    some (("https" : String).data,
      ("//www.casinos.com/" : String).data ++ (rr.data ++ '?' :: q.data)) from rfl]
  dsimp only
  rw [if_pos (show prefixAt ['/', '/'] (("//www.casinos.com/" : String).data ++
    (rr.data ++ '?' :: q.data)) = true from rfl)]
  dsimp only
  rw [show ((("//www.casinos.com/" : String).data ++ (rr.data ++ '?' :: q.data)).drop 2) =
    (("www.casinos.com/" : String).data ++ (rr.data ++ '?' :: q.data)) from rfl]
  rw [show ((("www.casinos.com/" : String).data ++ (rr.data ++ '?' :: q.data)).takeWhile
      (fun c => c ≠ '/' && c ≠ '?' && c ≠ '#')) = ("www.casinos.com" : String).data from rfl]
  rw [show ((("www.casinos.com/" : String).data ++ (rr.data ++ '?' :: q.data)).drop
      (("www.casinos.com" : String).data.length)) = '/' :: (rr.data ++ '?' :: q.data) from rfl]
  have hnohash : '#' ∉ '/' :: (rr.data ++ '?' :: q.data) := by
    intro hm
    rcases List.mem_cons.mp hm with he | hm
    · exact absurd he (by decide)
    · rcases List.mem_append.mp hm with hm | hm
      · exact hrr2 hm
      · rcases List.mem_cons.mp hm with he | hm
        · exact absurd he (by decide)
        · exact hq2 hm
  rw [splitAtFirst_eq_none hnohash]
  dsimp only
  have hnoq : '?' ∉ '/' :: rr.data := by
    intro hm
    rcases List.mem_cons.mp hm with he | hm
    · exact absurd he (by decide)
    · exact hrr3 hm
  rw [show splitAtFirst '?' ('/' :: (rr.data ++ '?' :: q.data)) =
    some ('/' :: rr.data, q.data) from splitAtFirst_app hnoq q.data]
  dsimp only
  have hnosemi : ';' ∉ '/' :: rr.data := by
    intro hm
    rcases List.mem_cons.mp hm with he | hm
    · exact absurd he (by decide)
    · exact hrr4 hm
  rw [splitParams_no_semi hnosemi]

theorem normalize_full_url (rr q : String)
    (hrr : ∀ c ∈ rr.data, pyIsSpace c = false ∧ c ≠ '#' ∧ c ≠ '?' ∧ c ≠ ';')
    (hq : ∀ c ∈ q.data, pyIsSpace c = false ∧ c ≠ '#')
    (hqne : q ≠ "") :
    normalize_to_casinos ("https://www.casinos.com/" ++ rr ++ "?" ++ q) =
      Except.ok ("https://www.casinos.com/" ++ rr ++ "?" ++ q) := by
  have hparse := pyUrlparse_full rr q
    (fun c hc => nonspace_clean (hrr c hc).1)
    (fun hm => (hrr _ hm).2.1 rfl) (fun hm => (hrr _ hm).2.2.1 rfl)
    (fun hm => (hrr _ hm).2.2.2 rfl)
    (fun c hc => nonspace_clean (hq c hc).1)
    (fun hm => (hq _ hm).2 rfl)
  have hsp : ∀ c ∈ (("https://www.casinos.com/" ++ rr ++ "?" ++ q) : String).data,
      pyIsSpace c = false := by
    intro c hc
    rw [show (("https://www.casinos.com/" ++ rr ++ "?" ++ q) : String).data =
      ("https://www.casinos.com/" : String).data ++ (rr.data ++ '?' :: q.data) from by
        simp only [strData_append, List.append_assoc]
        rfl] at hc
    rcases List.mem_append.mp hc with hc | hc
    · exact (show ∀ c ∈ ("https://www.casinos.com/" : String).data,
        pyIsSpace c = false from by decide) c hc
    · rcases List.mem_append.mp hc with hc | hc
      · exact (hrr c hc).1
      · rcases List.mem_cons.mp hc with rfl | hc
        · decide
        · exact (hq c hc).1
  have hstrip : pyStrip ("https://www.casinos.com/" ++ rr ++ "?" ++ q) =
      "https://www.casinos.com/" ++ rr ++ "?" ++ q := by
    unfold pyStrip
    rw [pyStripList_id hsp]
  unfold normalize_to_casinos
  dsimp only
  rw [hstrip]
  rw [show pyStartsWith ("https://www.casinos.com/" ++ rr ++ "?" ++ q) "/" = false from rfl]
  simp only [Bool.false_eq_true, if_false]
  rw [show (decide (¬ containsSub ("https://www.casinos.com/" ++ rr ++ "?" ++ q) "://" = true) &&
      pyStartsWith ("https://www.casinos.com/" ++ rr ++ "?" ++ q) "www.") = false from by
    rw [show containsSub ("https://www.casinos.com/" ++ rr ++ "?" ++ q) "://" = true from rfl]
    rfl]
  simp only [Bool.false_eq_true, if_false]
  rw [if_neg (show ¬¬(containsSub ("https://www.casinos.com/" ++ rr ++ "?" ++ q) "://" = true)
    from by simp [show containsSub ("https://www.casinos.com/" ++ rr ++ "?" ++ q) "://" = true
      from rfl])]
  rw [hparse]
  dsimp only
  rw [show pyLower "www.casinos.com" = "www.casinos.com" from by decide]
  rw [if_pos (show INTERNAL_HOSTS.contains "www.casinos.com" = true from by decide)]
  rw [if_pos (show (⟨'/' :: rr.data⟩ : String) ≠ "" from
    fun he => List.noConfusion (congrArg String.data he))]
  rw [if_pos hqne]
  congr 1
  apply str_ext
  simp only [strData_append, List.append_assoc, List.cons_append]
  rfl

/-- C4 counterexample: dot-segments are not preserved verbatim —
`normalize_to_casinos "/a/../b"` resolves the `..` and returns
`https://www.casinos.com/b`, not the input path `/a/../b`. -/
theorem claim_C4_counterexample :
    normalize_to_casinos "/a/../b" = Except.ok "https://www.casinos.com/b" ∧
    "https://www.casinos.com/b" ≠ "https://www.casinos.com" ++ "/a/../b" := by
  decide

/-- C4 (amended): path and query are preserved verbatim only for inputs
whose path has no dot-segments and no empty segments.  A full URL
`https://www.casinos.com/rr?q` with `rr` free of `#`, `?`, `;` and
whitespace and `q` nonempty and free of `#` and whitespace normalizes to
itself; and a clean relative token `t` (nonempty, no `:`, `#`, `?`, `;`,
no whitespace, not starting with `/` or `www.`, and with no empty, `.` or
`..` slash-segments) normalizes to `https://www.casinos.com/t`, with or
without a leading slash. -/
theorem claim_C4_amended (rr q t : String)
    (hrr : ∀ c ∈ rr.data, pyIsSpace c = false ∧ c ≠ '#' ∧ c ≠ '?' ∧ c ≠ ';')
    (hq : ∀ c ∈ q.data, pyIsSpace c = false ∧ c ≠ '#')
    (hqne : q ≠ "")
    (ht : t ≠ "")
    (hsp : ∀ c ∈ t.data, pyIsSpace c = false)
    (hcolon : ':' ∉ t.data) (hhash : '#' ∉ t.data) (hqm : '?' ∉ t.data)
    (hsemi : ';' ∉ t.data)
    (hsw : pyStartsWith t "/" = false)
    (hwww : pyStartsWith t "www." = false)
    (hsegs : ∀ seg ∈ pySplitOnChar '/' t.data,
      seg ≠ ([] : List Char) ∧ seg ≠ ['.'] ∧ seg ≠ ['.', '.']) :
    normalize_to_casinos ("https://www.casinos.com/" ++ rr ++ "?" ++ q) =
      Except.ok ("https://www.casinos.com/" ++ rr ++ "?" ++ q) ∧
    normalize_to_casinos t = Except.ok ("https://www.casinos.com/" ++ t) ∧
    normalize_to_casinos ("/" ++ t) = Except.ok ("https://www.casinos.com/" ++ t) := by
  obtain ⟨h1, h2⟩ := normalize_clean_token t ht hsp hcolon hhash hqm hsemi hsw hwww hsegs
  exact ⟨normalize_full_url rr q hrr hq hqne, h1, h2⟩

/-- C4 witness: the amended preservation theorem evaluated at the concrete
inputs `https://www.casinos.com/us/live-dealer?page=2`, `us/slots` and
`/us/slots`. -/
theorem claim_C4_witness :
    normalize_to_casinos "https://www.casinos.com/us/live-dealer?page=2" =
      Except.ok "https://www.casinos.com/us/live-dealer?page=2" ∧
    normalize_to_casinos "us/slots" = Except.ok "https://www.casinos.com/us/slots" ∧
    normalize_to_casinos "/us/slots" = Except.ok "https://www.casinos.com/us/slots" := by
  have h := claim_C4_amended "us/live-dealer" "page=2" "us/slots" (by decide) (by decide)
    (by decide) (by decide) (by decide) (by decide) (by decide) (by decide) (by decide)
    (by decide) (by decide) (by decide)
  exact ⟨h.1, h.2.1, h.2.2⟩

/-- C5 counterexample: `normalize_to_casinos "/https://evil.com/x"`
succeeds and returns `https://evil.com/x`, whose host is not one of the
casinos.com hosts. -/
theorem claim_C5_counterexample :
    normalize_to_casinos "/https://evil.com/x" = Except.ok "https://evil.com/x" ∧
    is_internal "https://evil.com/x" = false := by
  decide

/-- C5 witness: the amended theorem evaluated at the concrete input
`us/slots`, plus the concrete rejection of `https://evil.com/x`. -/
theorem claim_C5_witness :
    (∃ rest : String, "https://www.casinos.com/us/slots" = "https://www.casinos.com" ++ rest ∧
      (rest.data = [] ∨ ∃ c cs, rest.data = c :: cs ∧ (c = '/' ∨ c = '?' ∨ c = '#'))) ∧
    normalize_to_casinos "https://evil.com/x" =
      Except.error "Non-casinos.com URL not allowed: https://evil.com/x" := by
  have h := claim_C5_amended "us/slots" (by decide)
  exact ⟨h.1 "https://www.casinos.com/us/slots" (by decide), h.2⟩

end Casinos
